import Mathlib

/-!
Verification of the folder/file hierarchy management subsystem of the
backend-fy repository, against a shallow embedding of its controller
functions.

The persistent store (PostgreSQL through Prisma) is modelled as explicit
lists of records with fresh-id counters; each controller becomes a pure
Lean function from an input store (plus the authenticated principal id and
the request parameters) to an output store and a typed result mirroring
the HTTP responses of the source.  `bcrypt.compare` is an external
collaborator and is passed in as an opaque comparison function.
-/

namespace BackendFy

/-- A row of the `Folder` table (prisma schema / migration.sql). -/
structure FolderRec where
  id : Nat
  name : String
  userId : Nat
  parentId : Option Nat
  isLocked : Bool
  isImportant : Bool
  lockPassword : Option String
  folderColor : String
deriving DecidableEq, Repr

/-- A row of the `File` table (prisma schema / migration.sql). -/
structure FileRec where
  id : Nat
  name : String
  url : String
  size : Nat
  mimetype : String
  userId : Nat
  folderId : Option Nat
  isLocked : Bool
  categoryId : Option Nat
deriving DecidableEq, Repr

/-- The part of a `User` row the folder subsystem reads. -/
structure UserRec where
  id : Nat
  lockPassword : Option String
deriving DecidableEq, Repr

/-- The relational store: table contents plus the next auto-increment ids. -/
structure Store where
  folders : List FolderRec
  files : List FileRec
  users : List UserRec
  nextFolderId : Nat
  nextFileId : Nat
deriving DecidableEq, Repr

/-- `prisma.folder.findUnique({ where: { id } })`. -/
def findFolder (s : Store) (id : Nat) : Option FolderRec :=
  s.folders.find? (fun f => f.id == id)

/-- `prisma.file.findUnique({ where: { id } })`. -/
def findFile (s : Store) (id : Nat) : Option FileRec :=
  s.files.find? (fun f => f.id == id)

/-- `prisma.user.findUnique({ where: { id } })`. -/
def findUser (s : Store) (id : Nat) : Option UserRec :=
  s.users.find? (fun u => u.id == id)

/-- `prisma.file.findMany({ where: { folderId, userId } })` as used by
`duplicateFolderContents`. -/
def filesIn (s : Store) (fid uid : Nat) : List FileRec :=
  s.files.filter (fun f => f.folderId == some fid && f.userId == uid)

/-- `prisma.folder.findMany({ where: { parentId, userId } })` as used by
`duplicateFolderContents`. -/
def subfoldersOf (s : Store) (fid uid : Nat) : List FolderRec :=
  s.folders.filter (fun f => f.parentId == some fid && f.userId == uid)

/-- The `subfolders` relation of the prisma `include` clause: all child rows
of a folder, with no owner filter. -/
def childrenOf (s : Store) (fid : Nat) : List FolderRec :=
  s.folders.filter (fun f => f.parentId == some fid)

/-- The `files` relation of the prisma `include` clause. -/
def filesUnder (s : Store) (fid : Nat) : List FileRec :=
  s.files.filter (fun f => f.folderId == some fid)

/-- The typed error results the controllers return, tagged with the HTTP
status and the response message of the source. -/
inductive ApiError where
  | notFound (msg : String)
  | forbidden (msg : String)
  | badRequest (msg : String)
  | authFailed (msg : String)
  | internal (msg : String)
deriving DecidableEq, Repr

deriving instance DecidableEq for Except

/-- `prisma.folder.update({ where: { id }, data })`: replace the row with the
given id by its updated image. -/
def updateFolderRow (s : Store) (id : Nat) (upd : FolderRec → FolderRec) : Store :=
  { s with folders := s.folders.map (fun f => if f.id == id then upd f else f) }

/-- `prisma.file.update({ where: { id }, data })`. -/
def updateFileRow (s : Store) (id : Nat) (upd : FileRec → FileRec) : Store :=
  { s with files := s.files.map (fun f => if f.id == id then upd f else f) }

/-!  ### Folder creation (`createFolder`, userController.js 229-257)

The controller validates only that a name was supplied; the `parentId` of the
request body is stored as-is (`parentId || null`).  A dangling parent id is
rejected not by the controller but by the `Folder_parentId_fkey` foreign-key
constraint of migration.sql, which surfaces as a caught exception and a 500
response; a parent owned by a different user is accepted.  JavaScript
truthiness (`!name`, `parentId ||`, `folderColor ||`) is rendered with the
empty string and `Option.none` as the falsy values. -/

/-- `folderColor || "blue"` (absent and empty strings are falsy). -/
def colorOrBlue : Option String → String
  | none => "blue"
  | some "" => "blue"
  | some c => c

def createFolder (s : Store) (uid : Nat) (name : String) (parentId : Option Nat)
    (folderColor : Option String) : Store × Except ApiError FolderRec :=
  if name = "" then (s, .error (.badRequest "Folder name is required"))
  else
    match parentId with
    | some p =>
      match findFolder s p with
      | none => (s, .error (.internal "Foreign key constraint failed"))
      | some _ =>
        let newRec : FolderRec :=
          { id := s.nextFolderId, name := name, userId := uid, parentId := some p
            isLocked := false, isImportant := false, lockPassword := none
            folderColor := colorOrBlue folderColor }
        ({ s with folders := s.folders ++ [newRec], nextFolderId := s.nextFolderId + 1 }, .ok newRec)
    | none =>
      let newRec : FolderRec :=
        { id := s.nextFolderId, name := name, userId := uid, parentId := none
          isLocked := false, isImportant := false, lockPassword := none
          folderColor := colorOrBlue folderColor }
      ({ s with folders := s.folders ++ [newRec], nextFolderId := s.nextFolderId + 1 }, .ok newRec)

/-!  ### Cascading folder deletion

`deleteFolder` issues a single `prisma.folder.delete`; the transitive removal
of descendant folders and of the files inside them is performed by the
database through the `ON DELETE CASCADE` clauses of `Folder_parentId_fkey`
and `File_folderId_fkey` (migration.sql).  The cascade is modelled by
removing every folder whose ancestor walk (with enough fuel) reaches the
deleted root, and every file attached to such a folder. -/

/-- The ids of the strict ancestors of folder `id`, nearest parent first,
obtained by walking parent pointers for at most `fuel` steps. -/
def ancestorIds : Nat → Store → Nat → List Nat
  | 0, _, _ => []
  | fuel + 1, s, id =>
    match findFolder s id with
    | none => []
    | some f =>
      match f.parentId with
      | none => []
      | some p => p :: ancestorIds fuel s p

/-- Membership of `id` in the subtree rooted at `root` (the root included),
judged by the ancestor walk. -/
def inSubtree (fuel : Nat) (s : Store) (root id : Nat) : Bool :=
  id == root || (ancestorIds fuel s id).contains root

/-- The database-side cascade triggered by deleting folder `rootId`. -/
def cascadeDeleteFolder (fuel : Nat) (s : Store) (rootId : Nat) : Store :=
  { s with
    folders := s.folders.filter (fun g => !(inSubtree fuel s rootId g.id))
    files := s.files.filter (fun fl =>
      match fl.folderId with
      | none => true
      | some fid => !(inSubtree fuel s rootId fid)) }

/-- `deleteFolder` (userController.js 260-276): existence check, ownership
check, then the cascading delete. -/
def deleteFolder (fuel : Nat) (s : Store) (uid folderId : Nat) :
    Store × Except ApiError String :=
  match findFolder s folderId with
  | none => (s, .error (.notFound "Folder not found"))
  | some folder =>
    if folder.userId ≠ uid then (s, .error (.forbidden "Unauthorized"))
    else (cascadeDeleteFolder fuel s folderId, .ok "Folder deleted successfully")

/-- `deleteSubfolder` (userController.js 279-299): existence check and a
root-folder guard, but no ownership check — the principal id is not
consulted at all by the source. -/
def deleteSubfolder (fuel : Nat) (s : Store) (folderId : Nat) :
    Store × Except ApiError String :=
  match findFolder s folderId with
  | none => (s, .error (.notFound "Folder not found"))
  | some folder =>
    if folder.parentId = none then (s, .error (.badRequest "Cannot delete root folder"))
    else (cascadeDeleteFolder fuel s folderId, .ok "Subfolder deleted successfully")

/-!  ### Folder moves (`moveFolder`, userController.js 603-640, and the
folder branch of `moveItem`, itemsController 17-121)

Both validate the destination (existence, ownership) and reject only the
case destination = moved folder; neither walks the destination's ancestor
chain, so moving a folder into one of its descendants is accepted. -/

def moveFolder (s : Store) (uid folderId : Nat) (parentId : Option Nat) :
    Store × Except ApiError FolderRec :=
  match findFolder s folderId with
  | none => (s, .error (.notFound "Folder not found"))
  | some _folder =>
    if _folder.userId ≠ uid then (s, .error (.forbidden "Unauthorized"))
    else
      match parentId with
      | some pid =>
        match findFolder s pid with
        | none => (s, .error (.notFound "Destination folder not found"))
        | some parentFolder =>
          if parentFolder.userId ≠ uid then
            (s, .error (.forbidden "Unauthorized to move to this folder"))
          else if pid = folderId then
            (s, .error (.badRequest "Cannot move folder into itself"))
          else
            (updateFolderRow s folderId (fun f => { f with parentId := some pid }),
             .ok { _folder with parentId := some pid })
      | none =>
        (updateFolderRow s folderId (fun f => { f with parentId := none }),
         .ok { _folder with parentId := none })

/-- The `type === 'folder'` branch of the unified `moveItem` controller; the
logic coincides with `moveFolder` apart from the response messages. -/
def moveItemFolder (s : Store) (uid itemId : Nat) (targetFolderId : Option Nat) :
    Store × Except ApiError FolderRec :=
  match findFolder s itemId with
  | none => (s, .error (.notFound "Folder not found"))
  | some _folder =>
    if _folder.userId ≠ uid then (s, .error (.forbidden "Unauthorized"))
    else
      match targetFolderId with
      | some tid =>
        match findFolder s tid with
        | none => (s, .error (.notFound "Target folder not found"))
        | some targetFolder =>
          if targetFolder.userId ≠ uid then
            (s, .error (.forbidden "Unauthorized to move to this folder"))
          else if tid = itemId then
            (s, .error (.badRequest "Cannot move folder into itself"))
          else
            (updateFolderRow s itemId (fun f => { f with parentId := some tid }),
             .ok { _folder with parentId := some tid })
      | none =>
        (updateFolderRow s itemId (fun f => { f with parentId := none }),
         .ok { _folder with parentId := none })

/-!  ### Locking and unlocking

`lockFolder` (userController.js 361-384) sets the flag unconditionally after
the existence and ownership checks; no password is involved and the
`lockPassword` column of the folder is never written.

`unlockFolder` (userController.js 388-436) checks existence, ownership and
that the folder is currently locked; then either the whole password block is
skipped (`skipPasswordCheck` truthy) or the supplied password is verified
with `bcrypt.compare` against the *account-level* `user.lockPassword` hash.
`bcrypt.compare` is the external collaborator `compare`. -/

def lockFolder (s : Store) (uid folderId : Nat) : Store × Except ApiError FolderRec :=
  match findFolder s folderId with
  | none => (s, .error (.notFound "Folder not found"))
  | some folder =>
    if folder.userId ≠ uid then (s, .error (.forbidden "Unauthorized"))
    else
      (updateFolderRow s folderId (fun f => { f with isLocked := true }),
       .ok { folder with isLocked := true })

def unlockFolder (s : Store) (uid folderId : Nat) (password : Option String)
    (skipPasswordCheck : Bool) (compare : String → String → Bool) :
    Store × Except ApiError FolderRec :=
  match findFolder s folderId with
  | none => (s, .error (.notFound "Folder not found"))
  | some folder =>
    if folder.userId ≠ uid then (s, .error (.forbidden "Unauthorized"))
    else if folder.isLocked = false then
      (s, .error (.badRequest "Folder is not locked"))
    else if skipPasswordCheck then
      (updateFolderRow s folderId (fun f => { f with isLocked := false }),
       .ok { folder with isLocked := false })
    else
      match password with
      | none => (s, .error (.badRequest "Password required or authentication required"))
      | some pw =>
        if pw = "" then (s, .error (.badRequest "Password required or authentication required"))
        else
          match findUser s uid with
          | none => (s, .error (.badRequest "Lock password not set. Please set a lock password first."))
          | some user =>
            match user.lockPassword with
            | none => (s, .error (.badRequest "Lock password not set. Please set a lock password first."))
            | some hash =>
              if compare pw hash then
                (updateFolderRow s folderId (fun f => { f with isLocked := false }),
                 .ok { folder with isLocked := false })
              else (s, .error (.authFailed "Incorrect password"))

/-- `unlockFile` (fileController): existence, ownership, then the
state-precondition check that the file is currently locked. -/
def unlockFile (s : Store) (uid fileId : Nat) : Store × Except ApiError FileRec :=
  match findFile s fileId with
  | none => (s, .error (.notFound "File not found"))
  | some file =>
    if file.userId ≠ uid then (s, .error (.forbidden "Unauthorized"))
    else if file.isLocked = false then
      (s, .error (.badRequest "File is not locked"))
    else
      (updateFileRow s fileId (fun f => { f with isLocked := false }),
       .ok { file with isLocked := false })

/-- `getSingleFile` (fileController): looks the row up and returns it.  The
source never reads `req.user`, so no principal argument exists here. -/
def getSingleFile (s : Store) (fileId : Nat) : Except ApiError FileRec :=
  match findFile s fileId with
  | none => .error (.notFound "File not found")
  | some file => .ok file

/-!  ### Parent chains (`getParentChain`, userController.js 468-505)

The source walks `parentId` pointers in a `while` loop, prepending each
ancestor, and stops silently when a parent row is missing or owned by a
different user.  The loop is rendered with explicit fuel; on an acyclic
store the fuel is never the reason the walk stops (proved below). -/

def getParentChainLoop : Nat → Store → Option Nat → Nat → List (Nat × String)
  | _, _, none, _ => []
  | 0, _, some _, _ => []
  | fuel + 1, s, some pid, uid =>
    match findFolder s pid with
    | none => []
    | some f =>
      if f.userId ≠ uid then []
      else getParentChainLoop fuel s f.parentId uid ++ [(f.id, f.name)]

def getParentChain (fuel : Nat) (s : Store) (folderId uid : Nat) : List (Nat × String) :=
  match findFolder s folderId with
  | none => []
  | some cur =>
    if cur.userId ≠ uid then []
    else getParentChainLoop fuel s cur.parentId uid

/-!  ### `getFolderById` (userController.js 508-573)

After the existence and ownership checks, a *locked* folder demands a
password which is verified against the folder's own `lockPassword` column
(`folder.lockPassword`), not against the account-level hash; since
`lockFolder` never writes that column, the branch with a supplied password
can only answer 400.  The response carries the immediate children with the
locked ones filtered out, the files, and the parent chain. -/

structure FolderView where
  folder : FolderRec
  subfolders : List FolderRec
  files : List FileRec
  parentChain : List (Nat × String)
deriving DecidableEq, Repr

def getFolderById (fuel : Nat) (s : Store) (uid folderId : Nat)
    (password : Option String) (compare : String → String → Bool) :
    Except ApiError FolderView :=
  match findFolder s folderId with
  | none => .error (.notFound "Folder not found")
  | some folder =>
    if folder.userId ≠ uid then .error (.forbidden "Unauthorized")
    else
      let proceed : Except ApiError FolderView :=
        .ok { folder := folder
              subfolders := (childrenOf s folderId).filter (fun sub => !sub.isLocked)
              files := filesUnder s folderId
              parentChain := getParentChain fuel s folderId uid }
      if folder.isLocked then
        match password with
        | none => .error (.forbidden "Folder is locked. Password required.")
        | some pw =>
          if pw = "" then .error (.forbidden "Folder is locked. Password required.")
          else
            match folder.lockPassword with
            | none => .error (.badRequest "Folder lock password not set")
            | some hash =>
              if compare pw hash then proceed
              else .error (.authFailed "Incorrect password")
      else proceed

/-!  ### The duplication engine (`duplicateItem` folder branch and
`duplicateFolderContents`, itemsController 128-319)

Folder copies are named `<original> (Copy)`; file copies keep their
extension: `path.extname`/`path.basename` put the suffix *before* the last
dot, Node's dot-file rule included (a leading dot with no later dot is not
an extension).  The fresh upload location `/uploads/<timestamp>-<name>` is
modelled with the fresh file id standing in for `Date.now()`.

`duplicateFolderContents` first queries and copies the files of the source
folder, then queries the subfolders and, for each, creates its copy and
recurses into it before moving to the next — the model mirrors this order.
The recursion of the source is on database queries, so the model carries
fuel; a run that exhausts its fuel is reported as `none` (no response),
which is also the faithful rendering of the nonterminating runs the source
admits when the destination lies inside the source subtree. -/

def copyFolderName (n : String) : String := n ++ " (Copy)"

/-- Split a file name at its last dot, returning base and extension
(extension includes the dot); `none` when there is no dot. -/
def splitLastDot : List Char → Option (List Char × List Char)
  | [] => none
  | c :: cs =>
    match splitLastDot cs with
    | some (b, e) => some (c :: b, e)
    | none => if c = '.' then some ([], '.' :: cs) else none

/-- `` `${basename(n, extname(n))} (Copy)${extname(n)}` `` with Node's
convention that a name whose only dot is the leading one has no extension. -/
def copyFileName (n : String) : String :=
  match splitLastDot n.toList with
  | some (b, e) =>
    if b.isEmpty then n ++ " (Copy)"
    else String.mk b ++ " (Copy)" ++ String.mk e
  | none => n ++ " (Copy)"

/-- The `prisma.folder.create` call of `duplicateFolderContents` for a
subfolder copy; returns the new row's id. -/
def createCopyFolder (s : Store) (sub : FolderRec) (tgtId uid : Nat) : Store × Nat :=
  let nid := s.nextFolderId
  ({ s with
      folders := s.folders ++
        [{ id := nid, name := copyFolderName sub.name, userId := uid
           parentId := some tgtId, isLocked := false, isImportant := false
           lockPassword := none
           folderColor := if sub.folderColor = "" then "blue" else sub.folderColor }]
      nextFolderId := nid + 1 }, nid)

/-- The `prisma.file.create` call for a file copy (new name, fresh upload
location, size and mimetype preserved, unlocked, no category). -/
def createCopyFile (s : Store) (fl : FileRec) (tgtId uid : Nat) : Store :=
  let nid := s.nextFileId
  { s with
      files := s.files ++
        [{ id := nid, name := copyFileName fl.name
           url := "/uploads/" ++ toString nid ++ "-" ++ copyFileName fl.name
           size := fl.size, mimetype := fl.mimetype, userId := uid
           folderId := some tgtId, isLocked := false, categoryId := none }]
      nextFileId := nid + 1 }

/-- The file-copy loop of `duplicateFolderContents` over the queried list. -/
def dupFiles (s : Store) (fls : List FileRec) (tgtId uid : Nat) : Store :=
  match fls with
  | [] => s
  | fl :: rest => dupFiles (createCopyFile s fl tgtId uid) rest tgtId uid

mutual

/-- `duplicateFolderContents(sourceFolderId, targetFolderId, userId)`. -/
def dupContents (fuel : Nat) (s : Store) (srcId tgtId uid : Nat) : Option Store :=
  match fuel with
  | 0 => none
  | fuel' + 1 =>
    let s1 := dupFiles s (filesIn s srcId uid) tgtId uid
    dupSubfolders fuel' s1 (subfoldersOf s1 srcId uid) tgtId uid
termination_by (fuel, 0)

/-- The subfolder loop: copy each queried subfolder, recursing into it
before the next. -/
def dupSubfolders (fuel : Nat) (s : Store) (subs : List FolderRec) (tgtId uid : Nat) :
    Option Store :=
  match subs with
  | [] => some s
  | sub :: rest =>
    let p := createCopyFolder s sub tgtId uid
    match dupContents fuel p.1 sub.id p.2 uid with
    | none => none
    | some s3 => dupSubfolders fuel s3 rest tgtId uid
termination_by (fuel, subs.length + 1)

end

/-- The folder branch of `duplicateItem` (itemsController 140-193): checks,
creation of the top copy in the destination, then the recursive copy.
`none` models a run with no response (fuel exhaustion / nontermination). -/
def duplicateFolderItem (fuel : Nat) (s : Store) (uid itemId : Nat)
    (targetFolderId : Option Nat) : Option (Store × Except ApiError FolderRec) :=
  match findFolder s itemId with
  | none => some (s, .error (.notFound "Folder not found"))
  | some folder =>
    if folder.userId ≠ uid then some (s, .error (.forbidden "Unauthorized"))
    else
      let proceed : Option Nat → Option (Store × Except ApiError FolderRec) := fun dest =>
        let nid := s.nextFolderId
        let topCopy : FolderRec :=
          { id := nid, name := copyFolderName folder.name, userId := uid
            parentId := dest, isLocked := false, isImportant := false
            lockPassword := none
            folderColor := if folder.folderColor = "" then "blue" else folder.folderColor }
        let s1 : Store :=
          { s with folders := s.folders ++ [topCopy], nextFolderId := nid + 1 }
        match dupContents fuel s1 folder.id nid uid with
        | none => none
        | some s2 => some (s2, .ok topCopy)
      match targetFolderId with
      | some tid =>
        match findFolder s tid with
        | none => some (s, .error (.notFound "Target folder not found"))
        | some targetFolder =>
          if targetFolder.userId ≠ uid then
            some (s, .error (.forbidden "Unauthorized to duplicate to this folder"))
          else proceed (some tid)
      | none => proceed none

/-!  ### Duplication under a persistence failure

The source performs its `create` calls one by one with no surrounding
transaction (flagged by the repository's own code review, issue 15:
"Folder duplication involves multiple database operations without
transactions. If one fails, partial data may be created").  The following
variant threads a budget of `create` calls that succeed before the
persistence layer fails; the records committed before the failure stay in
the store, and the thrown error is caught by the controller's `catch` and
answered as a 500. -/

def dupFilesF (s : Store) (budget : Nat) (fls : List FileRec) (tgtId uid : Nat) :
    Store × Nat × Bool :=
  match fls, budget with
  | [], _ => (s, budget, true)
  | _ :: _, 0 => (s, 0, false)
  | fl :: rest, b + 1 => dupFilesF (createCopyFile s fl tgtId uid) b rest tgtId uid

mutual

def dupContentsF (fuel : Nat) (s : Store) (budget srcId tgtId uid : Nat) :
    Store × Nat × Bool :=
  match fuel with
  | 0 => (s, budget, false)
  | fuel' + 1 =>
    let r1 := dupFilesF s budget (filesIn s srcId uid) tgtId uid
    if r1.2.2 then
      dupSubfoldersF fuel' r1.1 r1.2.1 (subfoldersOf r1.1 srcId uid) tgtId uid
    else r1
termination_by (fuel, 0)

def dupSubfoldersF (fuel : Nat) (s : Store) (budget : Nat) (subs : List FolderRec)
    (tgtId uid : Nat) : Store × Nat × Bool :=
  match subs, budget with
  | [], _ => (s, budget, true)
  | _ :: _, 0 => (s, 0, false)
  | sub :: rest, b + 1 =>
    let p := createCopyFolder s sub tgtId uid
    let r := dupContentsF fuel p.1 b sub.id p.2 uid
    if r.2.2 then dupSubfoldersF fuel r.1 r.2.1 rest tgtId uid else r
termination_by (fuel, subs.length + 1)

end

/-- The folder branch of `duplicateItem` when the persistence layer fails
after `budget` successful `create` calls: the error is caught and answered
as a 500, but everything committed before it remains. -/
def duplicateFolderItemF (fuel : Nat) (s : Store) (budget uid itemId : Nat)
    (targetFolderId : Option Nat) : Store × Except ApiError FolderRec :=
  match findFolder s itemId with
  | none => (s, .error (.notFound "Folder not found"))
  | some folder =>
    if folder.userId ≠ uid then (s, .error (.forbidden "Unauthorized"))
    else
      let proceed : Option Nat → Store × Except ApiError FolderRec := fun dest =>
        match budget with
        | 0 => (s, .error (.internal "create failed"))
        | b + 1 =>
          let nid := s.nextFolderId
          let topCopy : FolderRec :=
            { id := nid, name := copyFolderName folder.name, userId := uid
              parentId := dest, isLocked := false, isImportant := false
              lockPassword := none
              folderColor := if folder.folderColor = "" then "blue" else folder.folderColor }
          let s1 : Store :=
            { s with folders := s.folders ++ [topCopy], nextFolderId := nid + 1 }
          let r := dupContentsF fuel s1 b folder.id nid uid
          if r.2.2 then (r.1, .ok topCopy)
          else (r.1, .error (.internal "create failed"))
      match targetFolderId with
      | some tid =>
        match findFolder s tid with
        | none => (s, .error (.notFound "Target folder not found"))
        | some targetFolder =>
          if targetFolder.userId ≠ uid then
            (s, .error (.forbidden "Unauthorized to duplicate to this folder"))
          else proceed (some tid)
      | none => proceed none

/-!  ## Concrete stores used as failing inputs and witnesses -/

/-- Folder 1 "Docs" at the root and folder 2 "Taxes" inside it, both owned
by user 1 (the scenario of spec §8). -/
def exMoveStore : Store :=
  { folders :=
      [ { id := 1, name := "Docs", userId := 1, parentId := none, isLocked := false
          isImportant := false, lockPassword := none, folderColor := "blue" }
      , { id := 2, name := "Taxes", userId := 1, parentId := some 1, isLocked := false
          isImportant := false, lockPassword := none, folderColor := "blue" } ]
    files := [], users := [], nextFolderId := 3, nextFileId := 1 }

/-- A file and a subfolder owned by user 2 (with its root folder 4). -/
def exOwnStore : Store :=
  { folders :=
      [ { id := 4, name := "Root", userId := 2, parentId := none, isLocked := false
          isImportant := false, lockPassword := none, folderColor := "blue" }
      , { id := 3, name := "Sub", userId := 2, parentId := some 4, isLocked := false
          isImportant := false, lockPassword := none, folderColor := "blue" } ]
    files :=
      [ { id := 10, name := "secret.txt", url := "/uploads/secret.txt", size := 5
          mimetype := "text/plain", userId := 2, folderId := some 3, isLocked := false
          categoryId := none } ]
    users := [], nextFolderId := 5, nextFileId := 11 }

/-- User 1 with an account-level lock-password hash and an unlocked folder 5. -/
def exLockStore : Store :=
  { folders :=
      [ { id := 5, name := "Vault", userId := 1, parentId := none, isLocked := false
          isImportant := false, lockPassword := none, folderColor := "blue" } ]
    files := [], users := [ { id := 1, lockPassword := some "account-hash" } ]
    nextFolderId := 6, nextFileId := 1 }

/-- Folder 1 owned by user 1 containing two files. -/
def exDupStore : Store :=
  { folders :=
      [ { id := 1, name := "F", userId := 1, parentId := none, isLocked := false
          isImportant := false, lockPassword := none, folderColor := "blue" } ]
    files :=
      [ { id := 7, name := "a.txt", url := "/uploads/a.txt", size := 3
          mimetype := "text/plain", userId := 1, folderId := some 1, isLocked := false
          categoryId := none }
      , { id := 8, name := "b.txt", url := "/uploads/b.txt", size := 4
          mimetype := "text/plain", userId := 1, folderId := some 1, isLocked := false
          categoryId := none } ]
    users := [], nextFolderId := 2, nextFileId := 9 }

/-- A single root folder owned by user 2, used as a foreign parent. -/
def exParentStore : Store :=
  { folders :=
      [ { id := 1, name := "Other", userId := 2, parentId := none, isLocked := false
          isImportant := false, lockPassword := none, folderColor := "blue" } ]
    files := [], users := [], nextFolderId := 2, nextFileId := 1 }

/-- The truncating owned ancestor walk, immediate parent first: the ids the
`while` loop of `getParentChain` visits, in visiting order. -/
def ancestorIdsOwned : Nat → Store → Option Nat → Nat → List Nat
  | _, _, none, _ => []
  | 0, _, some _, _ => []
  | fuel + 1, s, some pid, uid =>
    match findFolder s pid with
    | none => []
    | some f =>
      if f.userId ≠ uid then []
      else pid :: ancestorIdsOwned fuel s f.parentId uid

/-- A ranking certificate for the acyclicity invariant of the folder table:
every parent pointer strictly decreases `rank`.  On such a store every
parent chain is finite and no folder is its own ancestor. -/
def rankOkB (s : Store) (rank : Nat → Nat) : Bool :=
  s.folders.all (fun g =>
    match g.parentId with
    | some p => rank p < rank g.id
    | none => true)

/-- Folder 1 "Docs", folder 2 "Taxes" inside it, and a file inside folder 2
(the deletion scenario of spec §8). -/
def exC6Docs : FolderRec :=
  { id := 1, name := "Docs", userId := 1, parentId := none, isLocked := false
    isImportant := false, lockPassword := none, folderColor := "blue" }

def exC6File : FileRec :=
  { id := 20, name := "a.txt", url := "/uploads/a.txt", size := 2
    mimetype := "text/plain", userId := 1, folderId := some 2, isLocked := false
    categoryId := none }

def exC6Store : Store :=
  { folders :=
      [ exC6Docs
      , { id := 2, name := "Taxes", userId := 1, parentId := some 1, isLocked := false
          isImportant := false, lockPassword := none, folderColor := "blue" } ]
    files := [exC6File], users := [], nextFolderId := 3, nextFileId := 21 }

/-- An unlocked folder and an unlocked file, both owned by user 1. -/
def exC9Folder : FolderRec :=
  { id := 6, name := "Plain", userId := 1, parentId := none, isLocked := false
    isImportant := false, lockPassword := none, folderColor := "blue" }

def exC9File : FileRec :=
  { id := 30, name := "c.txt", url := "/uploads/c.txt", size := 1
    mimetype := "text/plain", userId := 1, folderId := none, isLocked := false
    categoryId := none }

def exC9Store : Store :=
  { folders := [exC9Folder], files := [exC9File], users := []
    nextFolderId := 7, nextFileId := 31 }

/-- A locked folder owned by user 1. -/
def exC10Folder : FolderRec :=
  { id := 9, name := "Locked", userId := 1, parentId := none, isLocked := true
    isImportant := false, lockPassword := none, folderColor := "blue" }

def exC10Store : Store :=
  { folders := [exC10Folder], files := [], users := [ { id := 1, lockPassword := some "h" } ]
    nextFolderId := 10, nextFileId := 1 }

/-- The deepest folder of the chain store below. -/
def exC8C : FolderRec :=
  { id := 3, name := "C", userId := 1, parentId := some 2, isLocked := false
    isImportant := false, lockPassword := none, folderColor := "blue" }

/-- A three-deep chain 1 ← 2 ← 3 owned by user 1, for the parent-chain
witness. -/
def exC8Store : Store :=
  { folders :=
      [ { id := 1, name := "A", userId := 1, parentId := none, isLocked := false
          isImportant := false, lockPassword := none, folderColor := "blue" }
      , { id := 2, name := "B", userId := 1, parentId := some 1, isLocked := false
          isImportant := false, lockPassword := none, folderColor := "blue" }
      , { id := 3, name := "C", userId := 1, parentId := some 2, isLocked := false
          isImportant := false, lockPassword := none, folderColor := "blue" } ]
    files := [], users := [], nextFolderId := 4, nextFileId := 1 }

/-!  ## Observers for the duplication engine

`FTree`/`FForest` record the owner-visible subtree of a folder exactly as
the duplication queries see it: the folder id and name, the `(id, name)`
pairs of its files in query order, and the subtrees of its subfolders in
query order.  `STree` erases the ids, leaving the shape and the names —
two folders have isomorphic subtrees with corresponding names precisely
when their stripped trees are equal.  These are verification observers,
not source functions. -/

mutual
inductive FTree : Type where
  | node (id : Nat) (name : String) (files : List (Nat × String)) (children : FForest) : FTree
deriving DecidableEq
inductive FForest : Type where
  | nil : FForest
  | cons (hd : FTree) (tl : FForest) : FForest
deriving DecidableEq
end

mutual
inductive STree : Type where
  | node (name : String) (files : List String) (children : SForest) : STree
deriving DecidableEq
inductive SForest : Type where
  | nil : SForest
  | cons (hd : STree) (tl : SForest) : SForest
deriving DecidableEq
end

mutual
def FTree.depth : FTree → Nat
  | .node _ _ _ cs => cs.depthF + 1
def FForest.depthF : FForest → Nat
  | .nil => 0
  | .cons t ts => max t.depth ts.depthF
end

mutual
def FTree.ids : FTree → List Nat
  | .node i _ _ cs => i :: cs.idsF
def FForest.idsF : FForest → List Nat
  | .nil => []
  | .cons t ts => t.ids ++ ts.idsF
end

mutual
def FTree.fileIds : FTree → List Nat
  | .node _ _ fls cs => fls.map Prod.fst ++ cs.fileIdsF
def FForest.fileIdsF : FForest → List Nat
  | .nil => []
  | .cons t ts => t.fileIds ++ ts.fileIdsF
end

mutual
def FTree.strip : FTree → STree
  | .node _ n fls cs => .node n (fls.map Prod.snd) cs.stripF
def FForest.stripF : FForest → SForest
  | .nil => .nil
  | .cons t ts => .cons t.strip ts.stripF
end

/-!  The name image of duplication on a stripped tree: every folder name
and every file name gets the copy suffix (file names keep their
extension). -/
mutual
def STree.copyS : STree → STree
  | .node n fls cs => .node (copyFolderName n) (fls.map copyFileName) cs.copySF
def SForest.copySF : SForest → SForest
  | .nil => .nil
  | .cons t ts => .cons t.copyS ts.copySF
end

/-- Like `STree.copyS` but with the root folder's name given (the caller of
`duplicateFolderContents` names the root copy itself). -/
def STree.copyUnder (rootName : String) : STree → STree
  | .node _ fls cs => .node rootName (fls.map copyFileName) cs.copySF

/-!  Extraction of the owner-visible subtree of a folder, with fuel
bounding the depth. -/
mutual
def extractTree (fuel : Nat) (s : Store) (fid uid : Nat) : Option FTree :=
  match fuel with
  | 0 => none
  | fuel' + 1 =>
    match findFolder s fid with
    | none => none
    | some f =>
      if f.userId = uid then
        match extractForest fuel' s (subfoldersOf s fid uid) uid with
        | none => none
        | some cs =>
          some (.node fid f.name ((filesIn s fid uid).map (fun fl => (fl.id, fl.name))) cs)
      else none
termination_by (fuel, 0)

def extractForest (fuel : Nat) (s : Store) (gs : List FolderRec) (uid : Nat) :
    Option FForest :=
  match gs with
  | [] => some .nil
  | g :: rest =>
    match extractTree fuel s g.id uid with
    | none => none
    | some t =>
      match extractForest fuel s rest uid with
      | none => none
      | some ts => some (.cons t ts)
termination_by (fuel, gs.length + 1)

end

/-- The file records `duplicateFolderContents` creates when copying the
given files into `tgtId`, with ids allocated from `nid`. -/
def copiedFiles : List FileRec → Nat → Nat → Nat → List FileRec
  | [], _, _, _ => []
  | fl :: rest, nid, tgtId, uid =>
    { id := nid, name := copyFileName fl.name
      url := "/uploads/" ++ toString nid ++ "-" ++ copyFileName fl.name
      size := fl.size, mimetype := fl.mimetype, userId := uid
      folderId := some tgtId, isLocked := false, categoryId := none } ::
    copiedFiles rest (nid + 1) tgtId uid

/-- The referential well-formedness of a store (primary keys and reference
fields below the allocation counters), as a decidable check. -/
def storeInvB (s : Store) : Bool :=
  s.folders.all (fun g =>
    decide (g.id < s.nextFolderId) &&
    (match g.parentId with
     | some p => decide (p < s.nextFolderId)
     | none => true)) &&
  s.files.all (fun fl =>
    decide (fl.id < s.nextFileId) &&
    (match fl.folderId with
     | some p => decide (p < s.nextFolderId)
     | none => true))

/-- Folder 1 "F" (user 1) with file "a.txt" and subfolder 2 "Sub" holding
file "notes" — the duplication scenario. -/
def exC5Store : Store :=
  { folders :=
      [ { id := 1, name := "F", userId := 1, parentId := none, isLocked := false
          isImportant := false, lockPassword := none, folderColor := "blue" }
      , { id := 2, name := "Sub", userId := 1, parentId := some 1, isLocked := false
          isImportant := false, lockPassword := none, folderColor := "red" } ]
    files :=
      [ { id := 7, name := "a.txt", url := "/uploads/a.txt", size := 3
          mimetype := "text/plain", userId := 1, folderId := some 1, isLocked := false
          categoryId := none }
      , { id := 8, name := "notes", url := "/uploads/notes", size := 4
          mimetype := "text/plain", userId := 1, folderId := some 2, isLocked := false
          categoryId := none } ]
    users := [], nextFolderId := 3, nextFileId := 9 }

/-- The running invariant of the duplication simulation: the queries the
recursion performs on the original subtree (ids in `A`) still answer as in
the baseline store `s₀`, all ids and reference fields are below the
allocation counters, and the current copy target is an allocated fresh id. -/
structure SimInv (s₀ : Store) (uid : Nat) (A : List Nat) (s : Store) (tgt : Nat) : Prop where
  qsub : ∀ x ∈ A, subfoldersOf s x uid = subfoldersOf s₀ x uid
  qfil : ∀ x ∈ A, filesIn s x uid = filesIn s₀ x uid
  invFolderId : ∀ g ∈ s.folders, g.id < s.nextFolderId
  invFolderPar : ∀ g ∈ s.folders, ∀ p, g.parentId = some p → p < s.nextFolderId
  invFileId : ∀ fl ∈ s.files, fl.id < s.nextFileId
  invFilePar : ∀ fl ∈ s.files, ∀ p, fl.folderId = some p → p < s.nextFolderId
  tgtLt : tgt < s.nextFolderId
  tgtGe : s₀.nextFolderId ≤ tgt
  nfGe : s₀.nextFolderId ≤ s.nextFolderId
  nflGe : s₀.nextFileId ≤ s.nextFileId

/-- How a duplication step extends the store: only appends, every appended
folder a fresh-id unlocked unimportant copy owned by the caller whose
parent is the current target or another fresh id, every appended file
likewise. -/
def DupExtends (uid : Nat) (s : Store) (tgt : Nat) (s' : Store) : Prop :=
  (∃ E, s'.folders = s.folders ++ E ∧
    ∀ g ∈ E, g.userId = uid ∧ g.isLocked = false ∧ g.isImportant = false ∧
      s.nextFolderId ≤ g.id ∧ g.id < s'.nextFolderId ∧
      ∃ p, g.parentId = some p ∧ (p = tgt ∨ s.nextFolderId ≤ p) ∧ p < s'.nextFolderId) ∧
  (∃ Efl, s'.files = s.files ++ Efl ∧
    ∀ fl ∈ Efl, fl.userId = uid ∧ fl.isLocked = false ∧
      s.nextFileId ≤ fl.id ∧ fl.id < s'.nextFileId ∧
      ∃ p, fl.folderId = some p ∧ (p = tgt ∨ s.nextFolderId ≤ p) ∧ p < s'.nextFolderId) ∧
  s.nextFolderId ≤ s'.nextFolderId ∧ s.nextFileId ≤ s'.nextFileId

/-- What a run of `duplicateFolderContents` achieves for one source subtree
`t`, copied into the prepared target folder `tgt`. -/
def TreeStmt (s₀ : Store) (uid : Nat) (A : List Nat) (n : Nat) : Prop :=
  ∀ (t : FTree) (srcId efuel : Nat),
    t.depth ≤ n →
    extractTree efuel s₀ srcId uid = some t →
    (∀ x ∈ t.ids, x ∈ A) →
    ∀ (s : Store) (tgt : Nat) (tgtRec : FolderRec) (dfuel : Nat),
      SimInv s₀ uid A s tgt →
      findFolder s tgt = some tgtRec →
      tgtRec.userId = uid →
      subfoldersOf s tgt uid = [] →
      filesIn s tgt uid = [] →
      t.depth ≤ dfuel →
      ∃ s' u',
        dupContents dfuel s srcId tgt uid = some s' ∧
        DupExtends uid s tgt s' ∧
        (∀ efc, t.depth ≤ efc → extractTree efc s' tgt uid = some u') ∧
        u'.strip = STree.copyUnder tgtRec.name t.strip ∧
        (∀ x ∈ u'.ids, x = tgt ∨ (s.nextFolderId ≤ x ∧ x < s'.nextFolderId)) ∧
        (∀ x ∈ u'.fileIds, s.nextFileId ≤ x ∧ x < s'.nextFileId)

/-- What the subfolder loop of `duplicateFolderContents` achieves for the
queried subfolder list `gs` with subtrees `ts`. -/
def ForestStmt (s₀ : Store) (uid : Nat) (A : List Nat) (n : Nat) : Prop :=
  ∀ (ts : FForest) (gs : List FolderRec) (efuel : Nat),
    ts.depthF ≤ n →
    extractForest efuel s₀ gs uid = some ts →
    (∀ g ∈ gs, g ∈ s₀.folders) →
    (∀ x ∈ ts.idsF, x ∈ A) →
    ∀ (s : Store) (tgt dfuel : Nat),
      SimInv s₀ uid A s tgt →
      ts.depthF ≤ dfuel →
      ∃ s' us newSubs,
        dupSubfolders dfuel s gs tgt uid = some s' ∧
        DupExtends uid s tgt s' ∧
        subfoldersOf s' tgt uid = subfoldersOf s tgt uid ++ newSubs ∧
        filesIn s' tgt uid = filesIn s tgt uid ∧
        (∀ efc, ts.depthF ≤ efc → extractForest efc s' newSubs uid = some us) ∧
        us.stripF = ts.stripF.copySF ∧
        (∀ x ∈ us.idsF, s.nextFolderId ≤ x ∧ x < s'.nextFolderId) ∧
        (∀ x ∈ us.fileIdsF, s.nextFileId ≤ x ∧ x < s'.nextFileId)

/-- The record of folder 1 of `exC5Store`. -/
def exC5F : FolderRec :=
  { id := 1, name := "F", userId := 1, parentId := none, isLocked := false
    isImportant := false, lockPassword := none, folderColor := "blue" }

/-- The owner-visible subtree of folder 1 of `exC5Store`. -/
def exC5Tree : FTree :=
  FTree.node 1 "F" [(7, "a.txt")]
    (FForest.cons (FTree.node 2 "Sub" [(8, "notes")] FForest.nil) FForest.nil)

/-!  ## Helper lemmas -/

theorem find_of_findFolder {s : Store} {i : Nat} {f : FolderRec}
    (h : findFolder s i = some f) : f ∈ s.folders ∧ f.id = i :=
  ⟨List.mem_of_find?_eq_some h, by simpa using List.find?_some h⟩

theorem find_of_findFile {s : Store} {i : Nat} {f : FileRec}
    (h : findFile s i = some f) : f ∈ s.files ∧ f.id = i :=
  ⟨List.mem_of_find?_eq_some h, by simpa using List.find?_some h⟩

theorem find?_filter_none {α : Type} (l : List α) (p q : α → Bool)
    (h : ∀ a ∈ l, q a = true → p a = false) : (l.filter p).find? q = none := by
  cases hres : (l.filter p).find? q with
  | none => rfl
  | some a =>
    have hq := List.find?_some hres
    have hmem := List.mem_filter.mp (List.mem_of_find?_eq_some hres)
    have hp := h a hmem.1 hq
    rw [hp] at hmem
    exact absurd hmem.2 (by simp)

theorem findFolder_updateFolderRow (s : Store) (i j : Nat) (upd : FolderRec → FolderRec)
    (hid : ∀ x, (upd x).id = x.id) :
    findFolder (updateFolderRow s i upd) j =
      (findFolder s j).map (fun f => if f.id == i then upd f else f) := by
  have hpred : ∀ x : FolderRec, ((if x.id == i then upd x else x).id == j) = (x.id == j) := by
    intro x
    by_cases h : x.id = i
    · simp [h, hid]
    · simp [h]
  unfold findFolder updateFolderRow
  simp only [List.find?_map, Function.comp_def, hpred]

theorem findFile_updateFileRow (s : Store) (i j : Nat) (upd : FileRec → FileRec)
    (hid : ∀ x, (upd x).id = x.id) :
    findFile (updateFileRow s i upd) j =
      (findFile s j).map (fun f => if f.id == i then upd f else f) := by
  have hpred : ∀ x : FileRec, ((if x.id == i then upd x else x).id == j) = (x.id == j) := by
    intro x
    by_cases h : x.id = i
    · simp [h, hid]
    · simp [h]
  unfold findFile updateFileRow
  simp only [List.find?_map, Function.comp_def, hpred]

theorem findFolder_append {s1 s2 : Store} {E : List FolderRec} {x : Nat} {f : FolderRec}
    (hE : s2.folders = s1.folders ++ E) (h : findFolder s1 x = some f) :
    findFolder s2 x = some f := by
  unfold findFolder at h ⊢
  rw [hE, List.find?_append, h]
  rfl

theorem findFolder_fresh {s2 : Store} {pre : List FolderRec} {r : FolderRec}
    {post : List FolderRec} (h : s2.folders = pre ++ r :: post)
    (hpre : ∀ g ∈ pre, g.id ≠ r.id) : findFolder s2 r.id = some r := by
  unfold findFolder
  rw [h, List.find?_append]
  have hnone : pre.find? (fun f => f.id == r.id) = none := by
    rw [List.find?_eq_none]
    intro x hx
    simpa using hpre x hx
  rw [hnone]
  simp [List.find?_cons]

theorem dupFiles_eq : ∀ (fls : List FileRec) (s : Store) (tgtId uid : Nat),
    dupFiles s fls tgtId uid =
      { s with files := s.files ++ copiedFiles fls s.nextFileId tgtId uid
               nextFileId := s.nextFileId + fls.length } := by
  intro fls
  induction fls with
  | nil => intro s tgtId uid; simp [dupFiles, copiedFiles]
  | cons fl rest ih =>
    intro s tgtId uid
    rw [dupFiles, ih]
    simp only [createCopyFile, copiedFiles, List.append_assoc, List.singleton_append,
      List.length_cons]
    rw [Nat.add_assoc, Nat.add_comm 1 rest.length]

theorem copiedFiles_names : ∀ (fls : List FileRec) (nid tgtId uid : Nat),
    (copiedFiles fls nid tgtId uid).map FileRec.name =
      fls.map (fun fl => copyFileName fl.name) := by
  intro fls
  induction fls with
  | nil => intro nid tgtId uid; simp [copiedFiles]
  | cons fl rest ih => intro nid tgtId uid; simp [copiedFiles, ih]

theorem copiedFiles_mem : ∀ (fls : List FileRec) (nid tgtId uid : Nat),
    ∀ c ∈ copiedFiles fls nid tgtId uid,
      c.userId = uid ∧ c.isLocked = false ∧ c.folderId = some tgtId ∧
      nid ≤ c.id ∧ c.id < nid + fls.length := by
  intro fls
  induction fls with
  | nil => intro nid tgtId uid c hc; simp [copiedFiles] at hc
  | cons fl rest ih =>
    intro nid tgtId uid c hc
    simp only [copiedFiles, List.mem_cons] at hc
    cases hc with
    | inl h =>
      subst h
      refine ⟨rfl, rfl, rfl, le_refl _, by simp⟩
    | inr h =>
      rcases ih (nid + 1) tgtId uid c h with ⟨h1, h2, h3, h4, h5⟩
      refine ⟨h1, h2, h3, by omega, by simp; omega⟩

theorem copiedFiles_length : ∀ (fls : List FileRec) (nid tgtId uid : Nat),
    (copiedFiles fls nid tgtId uid).length = fls.length := by
  intro fls
  induction fls with
  | nil => intro nid tgtId uid; rfl
  | cons fl rest ih => intro nid tgtId uid; simp [copiedFiles, ih]

/-- Extraction results survive store extensions whose new records neither
live at nor point into the extracted tree. -/
theorem extract_stable (efc : Nat) :
    (∀ (s1 s2 : Store) (E : List FolderRec) (Efl : List FileRec) (fid uid : Nat) (u : FTree),
      extractTree efc s1 fid uid = some u →
      s2.folders = s1.folders ++ E →
      s2.files = s1.files ++ Efl →
      (∀ g ∈ E, ∀ p, g.parentId = some p → p ∉ u.ids) →
      (∀ fl ∈ Efl, ∀ p, fl.folderId = some p → p ∉ u.ids) →
      extractTree efc s2 fid uid = some u) ∧
    (∀ (s1 s2 : Store) (E : List FolderRec) (Efl : List FileRec) (gs : List FolderRec)
       (uid : Nat) (us : FForest),
      extractForest efc s1 gs uid = some us →
      s2.folders = s1.folders ++ E →
      s2.files = s1.files ++ Efl →
      (∀ g ∈ E, ∀ p, g.parentId = some p → p ∉ us.idsF) →
      (∀ fl ∈ Efl, ∀ p, fl.folderId = some p → p ∉ us.idsF) →
      extractForest efc s2 gs uid = some us) := by
  induction efc using Nat.strong_induction_on with
  | _ efc ih =>
    have htree : ∀ (s1 s2 : Store) (E : List FolderRec) (Efl : List FileRec)
        (fid uid : Nat) (u : FTree),
        extractTree efc s1 fid uid = some u →
        s2.folders = s1.folders ++ E →
        s2.files = s1.files ++ Efl →
        (∀ g ∈ E, ∀ p, g.parentId = some p → p ∉ u.ids) →
        (∀ fl ∈ Efl, ∀ p, fl.folderId = some p → p ∉ u.ids) →
        extractTree efc s2 fid uid = some u := by
      intro s1 s2 E Efl fid uid u hex hfo hfi hE hEfl
      cases efc with
      | zero => rw [extractTree] at hex; exact absurd hex (by simp)
      | succ e =>
        rw [extractTree] at hex
        cases hff : findFolder s1 fid with
        | none => rw [hff] at hex; exact absurd hex (by simp)
        | some f =>
          simp only [hff] at hex
          by_cases howner : f.userId = uid
          · rw [if_pos howner] at hex
            cases hcs : extractForest e s1 (subfoldersOf s1 fid uid) uid with
            | none => rw [hcs] at hex; exact absurd hex (by simp)
            | some cs =>
              rw [hcs] at hex
              have hu : u = FTree.node fid f.name
                  ((filesIn s1 fid uid).map (fun fl => (fl.id, fl.name))) cs := by
                injection hex with h
                exact h.symm
              have hfidmem : fid ∈ u.ids := by
                rw [hu, FTree.ids]
                exact List.mem_cons_self _ _
              have hff2 : findFolder s2 fid = some f := findFolder_append hfo hff
              have hsub2 : subfoldersOf s2 fid uid = subfoldersOf s1 fid uid := by
                unfold subfoldersOf
                rw [hfo, List.filter_append]
                have : E.filter (fun g => g.parentId == some fid && g.userId == uid) = [] := by
                  rw [List.filter_eq_nil]
                  intro g hg
                  intro hcontra
                  have hpar : g.parentId = some fid := by
                    have := (Bool.and_eq_true _ _).mp hcontra
                    simpa using this.1
                  exact hE g hg fid hpar hfidmem
                rw [this, List.append_nil]
              have hfil2 : filesIn s2 fid uid = filesIn s1 fid uid := by
                unfold filesIn
                rw [hfi, List.filter_append]
                have : Efl.filter (fun fl => fl.folderId == some fid && fl.userId == uid) = [] := by
                  rw [List.filter_eq_nil]
                  intro fl hfl
                  intro hcontra
                  have hpar : fl.folderId = some fid := by
                    have := (Bool.and_eq_true _ _).mp hcontra
                    simpa using this.1
                  exact hEfl fl hfl fid hpar hfidmem
                rw [this, List.append_nil]
              have hcsids : ∀ x, x ∈ cs.idsF → x ∈ u.ids := by
                intro x hx
                rw [hu, FTree.ids]
                exact List.mem_cons_of_mem _ hx
              have hcs2 : extractForest e s2 (subfoldersOf s2 fid uid) uid = some cs := by
                rw [hsub2]
                exact (ih e (by omega)).2 s1 s2 E Efl _ uid cs hcs hfo hfi
                  (fun g hg p hp => fun hmem => hE g hg p hp (hcsids p hmem))
                  (fun fl hfl p hp => fun hmem => hEfl fl hfl p hp (hcsids p hmem))
              rw [hu]
              simp [extractTree, hff2, howner, hcs2, hfil2]
          · rw [if_neg howner] at hex
            exact absurd hex (by simp)
    refine ⟨htree, ?_⟩
    intro s1 s2 E Efl gs uid us hex hfo hfi hE hEfl
    induction gs generalizing us with
    | nil =>
      rw [extractForest] at hex ⊢
      exact hex
    | cons g rest ihg =>
      rw [extractForest] at hex
      cases hg : extractTree efc s1 g.id uid with
      | none => rw [hg] at hex; exact absurd hex (by simp)
      | some t =>
        rw [hg] at hex
        cases hrest : extractForest efc s1 rest uid with
        | none => rw [hrest] at hex; exact absurd hex (by simp)
        | some ts =>
          rw [hrest] at hex
          have hus : us = FForest.cons t ts := by
            injection hex with h
            exact h.symm
          have hsubids : ∀ x, x ∈ t.ids → x ∈ us.idsF := by
            intro x hx
            rw [hus, FForest.idsF]
            exact List.mem_append_left _ hx
          have htsids : ∀ x, x ∈ ts.idsF → x ∈ us.idsF := by
            intro x hx
            rw [hus, FForest.idsF]
            exact List.mem_append_right _ hx
          have hg2 : extractTree efc s2 g.id uid = some t :=
            htree s1 s2 E Efl g.id uid t hg hfo hfi
              (fun a ha p hp => fun hmem => hE a ha p hp (hsubids p hmem))
              (fun fl hfl p hp => fun hmem => hEfl fl hfl p hp (hsubids p hmem))
          have hrest2 : extractForest efc s2 rest uid = some ts :=
            ihg ts hrest
              (fun a ha p hp hmem => hE a ha p hp (htsids p hmem))
              (fun fl hfl p hp hmem => hEfl fl hfl p hp (htsids p hmem))
          rw [hus]
          simp [extractForest, hg2, hrest2]

theorem find?_id_of_nodup {l : List FolderRec} (hnd : (l.map FolderRec.id).Nodup)
    {g : FolderRec} (hg : g ∈ l) : l.find? (fun f => f.id == g.id) = some g := by
  induction l with
  | nil => simp at hg
  | cons hd tl ih =>
    rw [List.map_cons, List.nodup_cons] at hnd
    rcases List.mem_cons.mp hg with rfl | hmem
    · simp [List.find?_cons]
    · have hne : (hd.id == g.id) = false := by
        have hmm : g.id ∈ tl.map FolderRec.id := List.mem_map_of_mem _ hmem
        simp only [beq_eq_false_iff_ne, ne_eq]
        intro hcontra
        rw [hcontra] at hnd
        exact hnd.1 hmm
      rw [List.find?_cons, hne]
      exact ih hnd.2 hmem

theorem extractTree_unfold {efuel : Nat} {s : Store} {fid uid : Nat} {u : FTree}
    (h : extractTree efuel s fid uid = some u) :
    ∃ e f cs, efuel = e + 1 ∧ findFolder s fid = some f ∧ f.userId = uid ∧
      extractForest e s (subfoldersOf s fid uid) uid = some cs ∧
      u = FTree.node fid f.name ((filesIn s fid uid).map (fun fl => (fl.id, fl.name))) cs := by
  cases efuel with
  | zero => rw [extractTree] at h; exact absurd h (by simp)
  | succ e =>
    rw [extractTree] at h
    cases hff : findFolder s fid with
    | none => rw [hff] at h; exact absurd h (by simp)
    | some f =>
      simp only [hff] at h
      by_cases howner : f.userId = uid
      · rw [if_pos howner] at h
        cases hcs : extractForest e s (subfoldersOf s fid uid) uid with
        | none => rw [hcs] at h; exact absurd h (by simp)
        | some cs =>
          rw [hcs] at h
          injection h with h2
          exact ⟨e, f, cs, rfl, rfl, howner, hcs, h2.symm⟩
      · rw [if_neg howner] at h
        exact absurd h (by simp)

theorem dupExtends_refl (uid : Nat) (s : Store) (tgt : Nat) : DupExtends uid s tgt s :=
  ⟨⟨[], by simp, by simp⟩, ⟨[], by simp, by simp⟩, le_refl _, le_refl _⟩

theorem dupExtends_trans {uid : Nat} {s s1 s2 : Store} {tgt tgt2 : Nat}
    (h1 : DupExtends uid s tgt s1) (h2 : DupExtends uid s1 tgt2 s2)
    (htgt2 : tgt2 = tgt ∨ s.nextFolderId ≤ tgt2) : DupExtends uid s tgt s2 := by
  obtain ⟨⟨E1, hE1, hE1p⟩, ⟨F1, hF1, hF1p⟩, hn1, hm1⟩ := h1
  obtain ⟨⟨E2, hE2, hE2p⟩, ⟨F2, hF2, hF2p⟩, hn2, hm2⟩ := h2
  refine ⟨⟨E1 ++ E2, by rw [hE2, hE1, List.append_assoc], ?_⟩,
          ⟨F1 ++ F2, by rw [hF2, hF1, List.append_assoc], ?_⟩, by omega, by omega⟩
  · intro g hg
    rcases List.mem_append.mp hg with h | h
    · rcases hE1p g h with ⟨ha, hb, hc, hd, he, p, hp, hq, hr⟩
      exact ⟨ha, hb, hc, hd, by omega, p, hp, hq, by omega⟩
    · rcases hE2p g h with ⟨ha, hb, hc, hd, he, p, hp, hq, hr⟩
      refine ⟨ha, hb, hc, by omega, he, p, hp, ?_, hr⟩
      rcases hq with rfl | hge
      · rcases htgt2 with rfl | hge2
        · exact Or.inl rfl
        · exact Or.inr hge2
      · exact Or.inr (by omega)
  · intro fl hfl
    rcases List.mem_append.mp hfl with h | h
    · rcases hF1p fl h with ⟨ha, hb, hc, hd, p, hp, hq, hr⟩
      exact ⟨ha, hb, hc, by omega, p, hp, hq, by omega⟩
    · rcases hF2p fl h with ⟨ha, hb, hc, hd, p, hp, hq, hr⟩
      refine ⟨ha, hb, by omega, hd, p, hp, ?_, hr⟩
      rcases hq with rfl | hge
      · rcases htgt2 with rfl | hge2
        · exact Or.inl rfl
        · exact Or.inr hge2
      · exact Or.inr (by omega)

/-- Queries on old folders other than the target are unchanged by a
duplication extension, and old lookups persist. -/
theorem dupExtends_queries {uid : Nat} {s s' : Store} {tgt : Nat}
    (h : DupExtends uid s tgt s') :
    (∀ x, x < s.nextFolderId → x ≠ tgt → subfoldersOf s' x uid = subfoldersOf s x uid) ∧
    (∀ x, x < s.nextFolderId → x ≠ tgt → filesIn s' x uid = filesIn s x uid) ∧
    (∀ x f, findFolder s x = some f → findFolder s' x = some f) := by
  obtain ⟨⟨E, hE, hEp⟩, ⟨F, hF, hFp⟩, hn, hm⟩ := h
  refine ⟨?_, ?_, ?_⟩
  · intro x hx hxt
    unfold subfoldersOf
    rw [hE, List.filter_append]
    have : E.filter (fun g => g.parentId == some x && g.userId == uid) = [] := by
      rw [List.filter_eq_nil_iff]
      intro g hg hcon
      rcases hEp g hg with ⟨_, _, _, _, _, p, hp, hq, _⟩
      have hpx : g.parentId = some x := by
        have := (Bool.and_eq_true _ _).mp hcon
        simpa using this.1
      rw [hp] at hpx
      have : p = x := by simpa using hpx
      subst this
      rcases hq with rfl | hge
      · exact hxt rfl
      · omega
    rw [this, List.append_nil]
  · intro x hx hxt
    unfold filesIn
    rw [hF, List.filter_append]
    have : F.filter (fun fl => fl.folderId == some x && fl.userId == uid) = [] := by
      rw [List.filter_eq_nil_iff]
      intro fl hfl hcon
      rcases hFp fl hfl with ⟨_, _, _, _, p, hp, hq, _⟩
      have hpx : fl.folderId = some x := by
        have := (Bool.and_eq_true _ _).mp hcon
        simpa using this.1
      rw [hp] at hpx
      have : p = x := by simpa using hpx
      subst this
      rcases hq with rfl | hge
      · exact hxt rfl
      · omega
    rw [this, List.append_nil]
  · intro x f hfx
    exact findFolder_append hE hfx

theorem createCopyFolder_extends {uid : Nat} (s : Store) (sub : FolderRec) (tgt : Nat)
    (htgt : tgt < s.nextFolderId) :
    DupExtends uid s tgt (createCopyFolder s sub tgt uid).1 := by
  refine ⟨⟨_, rfl, ?_⟩, ⟨[], by simp [createCopyFolder], by simp⟩, ?_, ?_⟩
  · intro g hg
    rw [List.mem_singleton] at hg
    subst hg
    exact ⟨rfl, rfl, rfl, le_refl _, by simp [createCopyFolder], tgt, rfl, Or.inl rfl,
      by simp [createCopyFolder]; omega⟩
  · simp [createCopyFolder]
  · simp [createCopyFolder]

theorem dupFiles_extends {uid : Nat} (s : Store) (fls : List FileRec) (tgt : Nat)
    (htgt : tgt < s.nextFolderId) :
    DupExtends uid s tgt (dupFiles s fls tgt uid) := by
  rw [dupFiles_eq]
  refine ⟨⟨[], by simp, by simp⟩, ⟨copiedFiles fls s.nextFileId tgt uid, by simp, ?_⟩,
    by simp, by simp⟩
  intro fl hfl
  rcases copiedFiles_mem fls s.nextFileId tgt uid fl hfl with ⟨h1, h2, h3, h4, h5⟩
  exact ⟨h1, h2, h4, by simpa using h5, tgt, h3, Or.inl rfl, by simpa using htgt⟩

theorem simInv_extend {s₀ : Store} {uid : Nat} {A : List Nat} {s s' : Store} {tgt : Nat}
    (hA : ∀ x ∈ A, x < s₀.nextFolderId)
    (hinv : SimInv s₀ uid A s tgt) (hext : DupExtends uid s tgt s')
    (tgt' : Nat) (h1 : tgt' < s'.nextFolderId) (h2 : s₀.nextFolderId ≤ tgt') :
    SimInv s₀ uid A s' tgt' := by
  have hq := dupExtends_queries hext
  obtain ⟨⟨E, hE, hEp⟩, ⟨F, hF, hFp⟩, hn, hm⟩ := hext
  refine ⟨?_, ?_, ?_, ?_, ?_, ?_, h1, h2, by have := hinv.nfGe; omega,
    by have := hinv.nflGe; omega⟩
  · intro x hx
    have hxlt : x < s.nextFolderId := lt_of_lt_of_le (hA x hx) hinv.nfGe
    have hxt : x ≠ tgt := by
      have := hinv.tgtGe
      have := hA x hx
      omega
    rw [hq.1 x hxlt hxt]
    exact hinv.qsub x hx
  · intro x hx
    have hxlt : x < s.nextFolderId := lt_of_lt_of_le (hA x hx) hinv.nfGe
    have hxt : x ≠ tgt := by
      have := hinv.tgtGe
      have := hA x hx
      omega
    rw [hq.2.1 x hxlt hxt]
    exact hinv.qfil x hx
  · intro g hg
    rw [hE] at hg
    rcases List.mem_append.mp hg with h | h
    · have := hinv.invFolderId g h
      omega
    · exact (hEp g h).2.2.2.2.1
  · intro g hg p hp
    rw [hE] at hg
    rcases List.mem_append.mp hg with h | h
    · have := hinv.invFolderPar g h p hp
      omega
    · rcases (hEp g h).2.2.2.2.2 with ⟨p2, hp2, _, hr⟩
      rw [hp] at hp2
      have : p2 = p := by simpa using hp2.symm
      subst this
      exact hr
  · intro fl hfl
    rw [hF] at hfl
    rcases List.mem_append.mp hfl with h | h
    · have := hinv.invFileId fl h
      omega
    · exact (hFp fl h).2.2.2.1
  · intro fl hfl p hp
    rw [hF] at hfl
    rcases List.mem_append.mp hfl with h | h
    · have := hinv.invFilePar fl h p hp
      omega
    · rcases (hFp fl h).2.2.2.2 with ⟨p2, hp2, _, hr⟩
      rw [hp] at hp2
      have : p2 = p := by simpa using hp2.symm
      subst this
      exact hr

/-- The duplication simulation: `duplicateFolderContents` copies exactly
the owner-visible subtree, name-mapped, into the prepared target. -/
theorem dup_sim (s₀ : Store) (uid : Nat) (A : List Nat)
    (hnd : (s₀.folders.map FolderRec.id).Nodup)
    (hA : ∀ x ∈ A, x < s₀.nextFolderId) :
    ∀ n, TreeStmt s₀ uid A n ∧ ForestStmt s₀ uid A n := by
  intro n
  induction n using Nat.strong_induction_on with
  | _ n ih =>
    have htree : TreeStmt s₀ uid A n := by
      intro t srcId efuel hdep hex hids s tgt tgtRec dfuel hinv htgtRec htgtOwn hchF hchFl hdf
      obtain ⟨e, f, cs, hef, hffeq, hfown, hcse, hu⟩ := extractTree_unfold hex
      subst hu
      subst hef
      simp only [FTree.depth] at hdep hdf
      have hsrcA : srcId ∈ A := by
        apply hids
        rw [FTree.ids]
        exact List.mem_cons_self _ _
      cases dfuel with
      | zero => omega
      | succ d =>
        have hfils : filesIn s srcId uid = filesIn s₀ srcId uid := hinv.qfil srcId hsrcA
        set fls := filesIn s₀ srcId uid with hflsdef
        set sB := dupFiles s fls tgt uid with hsBdef
        have hrun1 : dupContents (d + 1) s srcId tgt uid =
            dupSubfolders d sB (subfoldersOf sB srcId uid) tgt uid := by
          simp [dupContents, hfils, hsBdef]
        have hsBeq : sB = { s with files := s.files ++ copiedFiles fls s.nextFileId tgt uid
                                   nextFileId := s.nextFileId + fls.length } := by
          rw [hsBdef]
          exact dupFiles_eq _ s tgt uid
        have hsBnf : sB.nextFolderId = s.nextFolderId := by rw [hsBeq]
        have hsBnfl : sB.nextFileId = s.nextFileId + fls.length := by rw [hsBeq]
        have hsBfolders : sB.folders = s.folders := by rw [hsBeq]
        have hextB : DupExtends uid s tgt sB := by
          rw [hsBdef]
          exact dupFiles_extends s fls tgt hinv.tgtLt
        have hinvB : SimInv s₀ uid A sB tgt :=
          simInv_extend hA hinv hextB tgt (by rw [hsBnf]; exact hinv.tgtLt) hinv.tgtGe
        have hsubB : subfoldersOf sB srcId uid = subfoldersOf s₀ srcId uid := by
          have h1 : subfoldersOf sB srcId uid = subfoldersOf s srcId uid := by
            unfold subfoldersOf
            rw [hsBfolders]
          rw [h1]
          exact hinv.qsub srcId hsrcA
        have hcslt : cs.depthF < n := by omega
        have hforest2 := (ih cs.depthF hcslt).2
        have hsubmem : ∀ g ∈ subfoldersOf s₀ srcId uid, g ∈ s₀.folders := by
          intro g hg
          exact List.mem_of_mem_filter hg
        have hcsids : ∀ x ∈ cs.idsF, x ∈ A := by
          intro x hx
          apply hids
          rw [FTree.ids]
          exact List.mem_cons_of_mem _ hx
        rcases hforest2 cs (subfoldersOf s₀ srcId uid) e (le_refl _) hcse hsubmem hcsids
          sB tgt d hinvB (by omega)
          with ⟨s', us, newSubs, hrunF, hextF, hsubF, hfilF, hexF, hstripF, hidsF, hfidsF⟩
        have hrunAll : dupContents (d + 1) s srcId tgt uid = some s' := by
          rw [hrun1, hsubB]
          exact hrunF
        have hfilsB : filesIn sB tgt uid = copiedFiles fls s.nextFileId tgt uid := by
          have hflt : filesIn s tgt uid = [] := hchFl
          unfold filesIn at hflt ⊢
          rw [hsBeq]
          simp only [List.filter_append]
          rw [hflt, List.nil_append]
          rw [List.filter_eq_self]
          intro c hc
          rcases copiedFiles_mem fls s.nextFileId tgt uid c hc with ⟨h1, _, h3, _, _⟩
          simp [h1, h3]
        have hfilFinal : filesIn s' tgt uid = copiedFiles fls s.nextFileId tgt uid := by
          rw [hfilF, hfilsB]
        have hsubFinal : subfoldersOf s' tgt uid = newSubs := by
          rw [hsubF]
          have h1 : subfoldersOf sB tgt uid = subfoldersOf s tgt uid := by
            unfold subfoldersOf
            rw [hsBfolders]
          rw [h1, hchF, List.nil_append]
        have hfindT : findFolder s' tgt = some tgtRec := by
          have h1 : findFolder sB tgt = some tgtRec := by
            unfold findFolder at htgtRec ⊢
            rw [hsBfolders]
            exact htgtRec
          exact (dupExtends_queries hextF).2.2 tgt tgtRec h1
        refine ⟨s', FTree.node tgt tgtRec.name
          ((copiedFiles fls s.nextFileId tgt uid).map (fun c => (c.id, c.name))) us,
          hrunAll, dupExtends_trans hextB hextF (Or.inl rfl), ?_, ?_, ?_, ?_⟩
        · intro efc hefc
          simp only [FTree.depth] at hefc
          cases efc with
          | zero => omega
          | succ e' =>
            rw [extractTree]
            simp only [hfindT]
            rw [if_pos htgtOwn, hsubFinal, hexF e' (by omega), hfilFinal]
        · simp only [FTree.strip, STree.copyUnder]
          rw [hstripF]
          have hnames : ((copiedFiles fls s.nextFileId tgt uid).map
              (fun c => (c.id, c.name))).map Prod.snd =
              ((fls.map (fun fl => (fl.id, fl.name))).map Prod.snd).map copyFileName := by
            simp only [List.map_map]
            have h1 : ((fun c : Nat × String => c.2) ∘ fun c : FileRec => (c.id, c.name)) =
                FileRec.name := rfl
            have h2 : (copyFileName ∘ fun c : Nat × String => c.2) ∘
                (fun fl : FileRec => (fl.id, fl.name)) = fun fl => copyFileName fl.name := rfl
            rw [show ((fun x : Nat × String => x.2) ∘ fun c : FileRec => (c.id, c.name)) =
              FileRec.name from rfl]
            rw [copiedFiles_names]
            rfl
          rw [hnames]
        · intro x hx
          rw [FTree.ids] at hx
          rcases List.mem_cons.mp hx with rfl | hmem
          · exact Or.inl rfl
          · rcases hidsF x hmem with ⟨h1, h2⟩
            rw [hsBnf] at h1
            exact Or.inr ⟨h1, h2⟩
        · intro x hx
          rw [FTree.fileIds] at hx
          have hmono : sB.nextFileId ≤ s'.nextFileId := hextF.2.2.2
          rcases List.mem_append.mp hx with hmem | hmem
          · rw [List.map_map] at hmem
            rcases List.mem_map.mp hmem with ⟨c, hc, hcx⟩
            rcases copiedFiles_mem fls s.nextFileId tgt uid c hc with ⟨_, _, _, h4, h5⟩
            have hcid : c.id = x := hcx
            constructor
            · omega
            · rw [hsBnfl] at hmono
              omega
          · rcases hfidsF x hmem with ⟨h1, h2⟩
            rw [hsBnfl] at h1
            exact ⟨by omega, h2⟩
    refine ⟨htree, ?_⟩
    intro ts gs efuel hdep hex hsub hids s tgt dfuel hinv hdf
    induction gs generalizing ts s with
    | nil =>
      cases efuel with
      | zero =>
        rw [extractForest] at hex
        injection hex with h
        subst h
        refine ⟨s, .nil, [], by simp [dupSubfolders], dupExtends_refl uid s tgt, by simp, rfl,
          ?_, rfl, by simp [FForest.idsF], by simp [FForest.fileIdsF]⟩
        intro efc _
        simp [extractForest]
      | succ e =>
        rw [extractForest] at hex
        injection hex with h
        subst h
        refine ⟨s, .nil, [], by simp [dupSubfolders], dupExtends_refl uid s tgt, by simp, rfl,
          ?_, rfl, by simp [FForest.idsF], by simp [FForest.fileIdsF]⟩
        intro efc _
        simp [extractForest]
    | cons g rest ihg =>
      rw [extractForest] at hex
      cases hgext : extractTree efuel s₀ g.id uid with
      | none => rw [hgext] at hex; exact absurd hex (by simp)
      | some u =>
        rw [hgext] at hex
        cases hrext : extractForest efuel s₀ rest uid with
        | none => rw [hrext] at hex; exact absurd hex (by simp)
        | some us2 =>
          rw [hrext] at hex
          have hts : ts = FForest.cons u us2 := by
            injection hex with h
            exact h.symm
          subst hts
          simp only [FForest.depthF] at hdep hdf
          obtain ⟨e2, f2, cs2, hef2, hff2, hfown2, hcse2, hu2⟩ := extractTree_unfold hgext
          have hgmem : g ∈ s₀.folders := hsub g (List.mem_cons_self _ _)
          have hgfind : findFolder s₀ g.id = some g := find?_id_of_nodup hnd hgmem
          have hf2g : f2 = g := by
            rw [hff2] at hgfind
            exact Option.some.inj hgfind
          rw [hf2g] at hfown2 hu2
          set nid := s.nextFolderId with hnid
          set copyRec : FolderRec :=
            { id := nid, name := copyFolderName g.name, userId := uid
              parentId := some tgt, isLocked := false, isImportant := false
              lockPassword := none
              folderColor := if g.folderColor = "" then "blue" else g.folderColor } with hcopy
          set sA : Store :=
            { s with folders := s.folders ++ [copyRec], nextFolderId := nid + 1 } with hsA
          have hcreate : createCopyFolder s g tgt uid = (sA, nid) := rfl
          have hextA : DupExtends uid s tgt sA := by
            have h := @createCopyFolder_extends uid s g tgt hinv.tgtLt
            rw [hcreate] at h
            exact h
          have hsAnf : sA.nextFolderId = nid + 1 := rfl
          have hsAnfl : sA.nextFileId = s.nextFileId := rfl
          have hinvA : SimInv s₀ uid A sA nid :=
            simInv_extend hA hinv hextA nid (by omega) (by rw [hnid]; exact hinv.nfGe)
          have hfindA : findFolder sA nid = some copyRec := by
            have hpre : ∀ g2 ∈ s.folders, g2.id ≠ copyRec.id := by
              intro g2 hg2
              have := hinv.invFolderId g2 hg2
              rw [hcopy]
              simp only
              omega
            exact @findFolder_fresh sA s.folders copyRec [] rfl hpre
          have hchFa : subfoldersOf sA nid uid = [] := by
            unfold subfoldersOf
            show (s.folders ++ [copyRec]).filter _ = []
            rw [List.filter_append, List.filter_eq_nil_iff.mpr, List.nil_append]
            · rw [List.filter_eq_nil_iff]
              intro g2 hg2 hcon
              rw [List.mem_singleton] at hg2
              subst hg2
              have hpar : copyRec.parentId = some nid := by
                have := (Bool.and_eq_true _ _).mp hcon
                simpa using this.1
              rw [hcopy] at hpar
              simp only at hpar
              have : tgt = nid := by simpa using hpar
              have := hinv.tgtLt
              omega
            · intro g2 hg2 hcon
              have hpar : g2.parentId = some nid := by
                have := (Bool.and_eq_true _ _).mp hcon
                simpa using this.1
              have := hinv.invFolderPar g2 hg2 nid hpar
              omega
          have hchFla : filesIn sA nid uid = [] := by
            unfold filesIn
            show s.files.filter _ = []
            rw [List.filter_eq_nil_iff]
            intro fl hfl hcon
            have hpar : fl.folderId = some nid := by
              have := (Bool.and_eq_true _ _).mp hcon
              simpa using this.1
            have := hinv.invFilePar fl hfl nid hpar
            omega
          have hdepu : u.depth ≤ n := le_trans (le_max_left _ _) hdep
          have hidsu : ∀ x ∈ u.ids, x ∈ A := by
            intro x hx
            apply hids
            rw [FForest.idsF]
            exact List.mem_append_left _ hx
          rcases htree u g.id efuel hdepu hgext hidsu sA nid copyRec dfuel hinvA hfindA
            (show copyRec.userId = uid from rfl) hchFa hchFla (le_trans (le_max_left _ _) hdf)
            with ⟨sC, u', hrunC, hextC, hexC, hstripC, hidsC, hfidsC⟩
          have hextAC : DupExtends uid s tgt sC :=
            dupExtends_trans hextA hextC (Or.inr (by rw [hnid]))
          have hinvC : SimInv s₀ uid A sC tgt :=
            simInv_extend hA hinv hextAC tgt
              (lt_of_lt_of_le hinv.tgtLt hextAC.2.2.1) hinv.tgtGe
          have hdepr : us2.depthF ≤ n := le_trans (le_max_right _ _) hdep
          rcases ihg us2 hdepr hrext
            (fun g2 hg2 => hsub g2 (List.mem_cons_of_mem _ hg2))
            (fun x hx => hids x (by rw [FForest.idsF]; exact List.mem_append_right _ hx))
            sC hinvC (le_trans (le_max_right _ _) hdf)
            with ⟨s3, usR, newR, hrunR, hextR, hsubR, hfilR, hexR, hstripR, hidsR, hfidsR⟩
          have hrunAll : dupSubfolders dfuel s (g :: rest) tgt uid = some s3 := by
            rw [dupSubfolders, hcreate]
            simp only
            rw [hrunC]
            exact hrunR
          have hqC := dupExtends_queries hextC
          have htgtltA : tgt < sA.nextFolderId := lt_of_lt_of_le hinv.tgtLt hextA.2.2.1
          have htgtnid : tgt ≠ nid := by
            have := hinv.tgtLt
            omega
          have hsubC : subfoldersOf sC tgt uid = subfoldersOf s tgt uid ++ [copyRec] := by
            rw [hqC.1 tgt htgtltA htgtnid]
            unfold subfoldersOf
            show (s.folders ++ [copyRec]).filter _ = _
            rw [List.filter_append]
            congr 1
            rw [List.filter_eq_self]
            intro c hc
            rw [List.mem_singleton] at hc
            subst hc
            rw [hcopy]
            simp
          have hfilC : filesIn sC tgt uid = filesIn s tgt uid := by
            rw [hqC.2.1 tgt htgtltA htgtnid]
            rfl
          have hsubAll : subfoldersOf s3 tgt uid =
              subfoldersOf s tgt uid ++ (copyRec :: newR) := by
            rw [hsubR, hsubC, List.append_assoc, List.singleton_append]
          have hfilAll : filesIn s3 tgt uid = filesIn s tgt uid := by
            rw [hfilR, hfilC]
          have hextR' := hextR
          obtain ⟨⟨ER, hER, hERp⟩, ⟨FR, hFR, hFRp⟩, hnR, hmR⟩ := hextR'
          have hnidltA : nid < sA.nextFolderId := by omega
          have hexC2 : ∀ efc, u.depth ≤ efc → extractTree efc s3 nid uid = some u' := by
            intro efc hefc
            apply (extract_stable efc).1 sC s3 ER FR nid uid u' (hexC efc hefc) hER hFR
            · intro g2 hg2 p hp hmem
              rcases hERp g2 hg2 with ⟨_, _, _, _, _, p2, hp2, hq2, _⟩
              have hpp : p2 = p := by
                rw [hp] at hp2
                exact (Option.some.inj hp2).symm
              rw [hpp] at hq2
              rcases hidsC p hmem with rfl | ⟨hpl, hpu⟩
              · rcases hq2 with h | h
                · exact htgtnid h.symm
                · have := hextC.2.2.1
                  omega
              · rcases hq2 with h | h
                · subst h
                  omega
                · omega
            · intro fl hfl p hp hmem
              rcases hFRp fl hfl with ⟨_, _, _, _, p2, hp2, hq2, _⟩
              have hpp : p2 = p := by
                rw [hp] at hp2
                exact (Option.some.inj hp2).symm
              rw [hpp] at hq2
              rcases hidsC p hmem with rfl | ⟨hpl, hpu⟩
              · rcases hq2 with h | h
                · exact htgtnid h.symm
                · have := hextC.2.2.1
                  omega
              · rcases hq2 with h | h
                · subst h
                  omega
                · omega
          have hexAll : ∀ efc, max u.depth us2.depthF ≤ efc →
              extractForest efc s3 (copyRec :: newR) uid = some (FForest.cons u' usR) := by
            intro efc hefc
            rw [extractForest]
            have h1 : extractTree efc s3 copyRec.id uid = some u' := by
              rw [show copyRec.id = nid from rfl]
              exact hexC2 efc (le_trans (le_max_left _ _) hefc)
            rw [h1, hexR efc (le_trans (le_max_right _ _) hefc)]
          have hustrip : u'.strip = u.strip.copyS := by
            rw [hstripC, hu2]
            simp only [FTree.strip, STree.copyUnder, STree.copyS]
          refine ⟨s3, FForest.cons u' usR, copyRec :: newR, hrunAll,
            dupExtends_trans hextAC hextR (Or.inl rfl), hsubAll, hfilAll,
            ?_, ?_, ?_, ?_⟩
          · intro efc hefc
            simp only [FForest.depthF] at hefc
            exact hexAll efc hefc
          · simp only [FForest.stripF, SForest.copySF]
            rw [hustrip, hstripR]
          · intro x hx
            rw [FForest.idsF] at hx
            have hm1 : sA.nextFolderId ≤ sC.nextFolderId := hextC.2.2.1
            have hm2 : sC.nextFolderId ≤ s3.nextFolderId := hnR
            rcases List.mem_append.mp hx with hmem | hmem
            · rcases hidsC x hmem with rfl | ⟨h1, h2⟩
              · exact ⟨by omega, by omega⟩
              · exact ⟨by omega, by omega⟩
            · rcases hidsR x hmem with ⟨h1, h2⟩
              exact ⟨by omega, h2⟩
          · intro x hx
            rw [FForest.fileIdsF] at hx
            have hm1 : sA.nextFileId ≤ sC.nextFileId := hextC.2.2.2
            have hm2 : sC.nextFileId ≤ s3.nextFileId := hmR
            rcases List.mem_append.mp hx with hmem | hmem
            · rcases hfidsC x hmem with ⟨h1, h2⟩
              rw [hsAnfl] at h1
              exact ⟨h1, by omega⟩
            · rcases hfidsR x hmem with ⟨h1, h2⟩
              rw [hsAnfl] at hm1
              exact ⟨by omega, h2⟩

theorem storeInvB_spec {s : Store} (h : storeInvB s = true) :
    (∀ g ∈ s.folders, g.id < s.nextFolderId) ∧
    (∀ g ∈ s.folders, ∀ p, g.parentId = some p → p < s.nextFolderId) ∧
    (∀ fl ∈ s.files, fl.id < s.nextFileId) ∧
    (∀ fl ∈ s.files, ∀ p, fl.folderId = some p → p < s.nextFolderId) := by
  unfold storeInvB at h
  rw [Bool.and_eq_true] at h
  have h1 := List.all_eq_true.mp h.1
  have h2 := List.all_eq_true.mp h.2
  refine ⟨?_, ?_, ?_, ?_⟩
  · intro g hg
    have := (Bool.and_eq_true _ _).mp (h1 g hg)
    exact of_decide_eq_true this.1
  · intro g hg p hp
    have := (Bool.and_eq_true _ _).mp (h1 g hg)
    have h3 := this.2
    rw [hp] at h3
    exact of_decide_eq_true h3
  · intro fl hfl
    have := (Bool.and_eq_true _ _).mp (h2 fl hfl)
    exact of_decide_eq_true this.1
  · intro fl hfl p hp
    have := (Bool.and_eq_true _ _).mp (h2 fl hfl)
    have h3 := this.2
    rw [hp] at h3
    exact of_decide_eq_true h3

/-- Every folder id recorded in an extracted tree is the id of a folder row
of the store. -/
theorem extract_ids (efuel : Nat) :
    (∀ (s : Store) (fid uid : Nat) (u : FTree), extractTree efuel s fid uid = some u →
      ∀ x ∈ u.ids, ∃ g ∈ s.folders, g.id = x) ∧
    (∀ (s : Store) (gs : List FolderRec) (uid : Nat) (us : FForest),
      extractForest efuel s gs uid = some us →
      ∀ x ∈ us.idsF, ∃ g ∈ s.folders, g.id = x) := by
  induction efuel using Nat.strong_induction_on with
  | _ efc ih =>
    have htree : ∀ (s : Store) (fid uid : Nat) (u : FTree),
        extractTree efc s fid uid = some u →
        ∀ x ∈ u.ids, ∃ g ∈ s.folders, g.id = x := by
      intro s fid uid u hex x hx
      obtain ⟨e, f, cs, hef, hff, hfown, hcs, hu⟩ := extractTree_unfold hex
      subst hu
      rw [FTree.ids] at hx
      rcases List.mem_cons.mp hx with rfl | hmem
      · exact ⟨f, (find_of_findFolder hff).1, (find_of_findFolder hff).2⟩
      · exact (ih e (by omega)).2 s _ uid cs hcs x hmem
    refine ⟨htree, ?_⟩
    intro s gs uid us hex x hx
    induction gs generalizing us with
    | nil =>
      rw [extractForest] at hex
      injection hex with h
      subst h
      rw [FForest.idsF] at hx
      exact absurd hx (by simp)
    | cons g rest ihg =>
      rw [extractForest] at hex
      cases hg : extractTree efc s g.id uid with
      | none => rw [hg] at hex; exact absurd hex (by simp)
      | some t =>
        rw [hg] at hex
        cases hrest : extractForest efc s rest uid with
        | none => rw [hrest] at hex; exact absurd hex (by simp)
        | some ts =>
          rw [hrest] at hex
          have hus : us = FForest.cons t ts := by
            injection hex with h
            exact h.symm
          subst hus
          rw [FForest.idsF] at hx
          rcases List.mem_append.mp hx with hmem | hmem
          · exact htree s g.id uid t hg x hmem
          · exact ihg ts hrest hmem

/-!  ## Claim theorems -/

/-- C1: the claim requires `moveFolder(F, D)` (and `moveItem` with type
folder) to fail with a Conflict whenever D is a descendant of F, leaving
F's parent unchanged.  The code rejects only D = F: on the store with
folder 2 inside folder 1, moving folder 1 into folder 2 — 2 being a
descendant of 1, as its ancestor walk shows — is accepted by both
`moveFolder` and `moveItem`, and folder 1's parent is rewritten to 2,
creating a parent cycle.  (The source's own comment "Prevent moving folder
into itself or its children" and the repository code review, issue 12,
document the intended behaviour.) -/
theorem moveFolder_into_descendant_succeeds :
    (ancestorIds 8 exMoveStore 2).contains 1 = true ∧
    (moveFolder exMoveStore 1 1 (some 2)).2 =
      Except.ok { id := 1, name := "Docs", userId := 1, parentId := some 2
                  isLocked := false, isImportant := false, lockPassword := none
                  folderColor := "blue" } ∧
    findFolder (moveFolder exMoveStore 1 1 (some 2)).1 1 =
      some { id := 1, name := "Docs", userId := 1, parentId := some 2
             isLocked := false, isImportant := false, lockPassword := none
             folderColor := "blue" } ∧
    (moveItemFolder exMoveStore 1 1 (some 2)).2 =
      Except.ok { id := 1, name := "Docs", userId := 1, parentId := some 2
                  isLocked := false, isImportant := false, lockPassword := none
                  folderColor := "blue" } := by decide

/-- C3: the claim requires every entity-revealing or mutating operation to
answer Forbidden when the entity exists but belongs to another principal.
`getSingleFile` and `deleteSubfolder` consult no principal at all: file 10
and folder 3 belong to user 2, yet the file is revealed to any caller and
the subfolder is deleted by any caller (repository code review, issue 11). -/
theorem ownership_check_missing :
    findFile exOwnStore 10 =
      some { id := 10, name := "secret.txt", url := "/uploads/secret.txt", size := 5
             mimetype := "text/plain", userId := 2, folderId := some 3, isLocked := false
             categoryId := none } ∧
    getSingleFile exOwnStore 10 =
      Except.ok { id := 10, name := "secret.txt", url := "/uploads/secret.txt", size := 5
                  mimetype := "text/plain", userId := 2, folderId := some 3, isLocked := false
                  categoryId := none } ∧
    (deleteSubfolder 8 exOwnStore 3).2 = Except.ok "Subfolder deleted successfully" ∧
    findFolder (deleteSubfolder 8 exOwnStore 3).1 3 = none := by decide

/-- C7: the claim requires `getFolderById` to verify the supplied password
against the caller's account-level lock-password hash.  The code compares
against the folder's own `lockPassword` column, which `lockFolder` never
writes: locking folder 5 (owned by user 1, whose account hash is set) and
then requesting it with a password that the account-level comparison would
accept (the comparison collaborator here accepts everything) still answers
400 "Folder lock password not set" — the account hash is never consulted
and the contents are never revealed. -/
theorem getFolderById_ignores_account_hash :
    findUser exLockStore 1 = some { id := 1, lockPassword := some "account-hash" } ∧
    (lockFolder exLockStore 1 5).2 =
      Except.ok { id := 5, name := "Vault", userId := 1, parentId := none, isLocked := true
                  isImportant := false, lockPassword := none, folderColor := "blue" } ∧
    getFolderById 8 (lockFolder exLockStore 1 5).1 1 5 (some "right-password")
        (fun _ _ => true) =
      Except.error (ApiError.badRequest "Folder lock password not set") := by decide

/-- C2: the claim requires folder duplication to be atomic.  The source
wraps no transaction around its sequence of `create` calls (repository code
review, issue 15): duplicating folder 1 (two files) when the persistence
layer fails at the third `create` reports a 500, yet the copied folder
record "F (Copy)" and the first copied file record "a (Copy).txt" remain
in the store — a partial failure does not leave the store as if duplicate
had never run. -/
theorem duplicateItem_not_atomic :
    (duplicateFolderItemF 8 exDupStore 2 1 1 none).2 =
      Except.error (ApiError.internal "create failed") ∧
    findFolder (duplicateFolderItemF 8 exDupStore 2 1 1 none).1 2 =
      some { id := 2, name := "F (Copy)", userId := 1, parentId := none, isLocked := false
             isImportant := false, lockPassword := none, folderColor := "blue" } ∧
    ((duplicateFolderItemF 8 exDupStore 2 1 1 none).1.files.map FileRec.name) =
      ["a.txt", "b.txt", "a (Copy).txt"] ∧
    (duplicateFolderItemF 8 exDupStore 2 1 1 none).1 ≠ exDupStore := by
  have h : duplicateFolderItemF 8 exDupStore 2 1 1 none =
      ({ folders :=
          [ { id := 1, name := "F", userId := 1, parentId := none, isLocked := false
              isImportant := false, lockPassword := none, folderColor := "blue" }
          , { id := 2, name := "F (Copy)", userId := 1, parentId := none, isLocked := false
              isImportant := false, lockPassword := none, folderColor := "blue" } ]
         files :=
          [ { id := 7, name := "a.txt", url := "/uploads/a.txt", size := 3
              mimetype := "text/plain", userId := 1, folderId := some 1, isLocked := false
              categoryId := none }
          , { id := 8, name := "b.txt", url := "/uploads/b.txt", size := 4
              mimetype := "text/plain", userId := 1, folderId := some 1, isLocked := false
              categoryId := none }
          , { id := 9, name := "a (Copy).txt", url := "/uploads/9-a (Copy).txt", size := 3
              mimetype := "text/plain", userId := 1, folderId := some 2, isLocked := false
              categoryId := none } ]
         users := [], nextFolderId := 3, nextFileId := 10 },
       Except.error (ApiError.internal "create failed")) := by
    simp [duplicateFolderItemF, dupContentsF, dupSubfoldersF, dupFilesF, createCopyFile,
      createCopyFolder, filesIn, subfoldersOf, findFolder, exDupStore, copyFileName,
      splitLastDot, copyFolderName]
    decide
  rw [h]
  decide

/-- C4 counterexample: the claim requires `createFolder` with a parentId to
fail with Forbidden when the parent belongs to another user and with
NotFound when it does not exist.  Folder 1 belongs to user 2, yet user 1's
create under it succeeds and a folder is created; and with the dangling
parent 99 the failure is the surfaced foreign-key violation (Internal), not
NotFound. -/
theorem createFolder_no_parent_check :
    (createFolder exParentStore 1 "Mine" (some 1) none).2 =
      Except.ok { id := 2, name := "Mine", userId := 1, parentId := some 1, isLocked := false
                  isImportant := false, lockPassword := none, folderColor := "blue" } ∧
    (createFolder exParentStore 1 "Mine" (some 1) none).1.folders.length = 2 ∧
    createFolder exParentStore 1 "Mine" (some 99) none =
      (exParentStore, Except.error (ApiError.internal "Foreign key constraint failed")) := by decide

/-- C4 (amended): with a parentId given, `createFolder` performs no
application-level parent validation.  A dangling parent is rejected by the
foreign-key constraint, surfacing as an Internal failure (not NotFound) and
creating nothing; an existing parent — whatever its owner — is accepted and
the folder is created. -/
theorem createFolder_parent_unvalidated (s : Store) (uid : Nat) (name : String)
    (p : Nat) (color : Option String) (hname : name ≠ "") :
    (findFolder s p = none →
      createFolder s uid name (some p) color =
        (s, Except.error (ApiError.internal "Foreign key constraint failed"))) ∧
    (∀ pf, findFolder s p = some pf →
      createFolder s uid name (some p) color =
        ({ s with
            folders := s.folders ++
              [{ id := s.nextFolderId, name := name, userId := uid, parentId := some p
                 isLocked := false, isImportant := false, lockPassword := none
                 folderColor := colorOrBlue color }]
            nextFolderId := s.nextFolderId + 1 },
         Except.ok
           { id := s.nextFolderId, name := name, userId := uid, parentId := some p
             isLocked := false, isImportant := false, lockPassword := none
             folderColor := colorOrBlue color })) := by
  constructor
  · intro hnone
    simp [createFolder, hname, hnone]
  · intro pf hpf
    simp [createFolder, hname, hpf]

/-- Witness for C4's amended theorem: user 1 creating "Mine" under user 2's
folder 1 succeeds. -/
theorem createFolder_parent_unvalidated_witness :
    ("Mine" : String) ≠ "" ∧
    findFolder exParentStore 1 =
      some { id := 1, name := "Other", userId := 2, parentId := none, isLocked := false
             isImportant := false, lockPassword := none, folderColor := "blue" } ∧
    createFolder exParentStore 1 "Mine" (some 1) none =
      ({ exParentStore with
          folders := exParentStore.folders ++
            [{ id := exParentStore.nextFolderId, name := "Mine", userId := 1, parentId := some 1
               isLocked := false, isImportant := false, lockPassword := none
               folderColor := colorOrBlue none }]
          nextFolderId := exParentStore.nextFolderId + 1 },
       Except.ok
         { id := exParentStore.nextFolderId, name := "Mine", userId := 1, parentId := some 1
           isLocked := false, isImportant := false, lockPassword := none
           folderColor := colorOrBlue none }) :=
  ⟨by decide, by decide,
   (createFolder_parent_unvalidated exParentStore 1 "Mine" 1 none (by decide)).2
     { id := 1, name := "Other", userId := 2, parentId := none, isLocked := false
       isImportant := false, lockPassword := none, folderColor := "blue" } (by decide)⟩

/-- C6: on an owned folder, `deleteFolder` succeeds and the database cascade
removes the folder, every folder whose ancestor walk reaches it, and every
file attached directly or transitively inside it — all subsequent lookups
answer `none` (NotFound). -/
theorem deleteFolder_cascades (fuel : Nat) (s : Store) (uid F : Nat) (f : FolderRec)
    (hf : findFolder s F = some f) (hown : f.userId = uid)
    (hnodup : (s.files.map FileRec.id).Nodup) :
    (deleteFolder fuel s uid F).2 = Except.ok "Folder deleted successfully" ∧
    findFolder (deleteFolder fuel s uid F).1 F = none ∧
    (∀ D, inSubtree fuel s F D = true → findFolder (deleteFolder fuel s uid F).1 D = none) ∧
    (∀ fl ∈ s.files, ∀ fid, fl.folderId = some fid → inSubtree fuel s F fid = true →
      findFile (deleteFolder fuel s uid F).1 fl.id = none) := by
  have hstep : deleteFolder fuel s uid F =
      (cascadeDeleteFolder fuel s F, Except.ok "Folder deleted successfully") := by
    simp [deleteFolder, hf, hown]
  have hfolders : ∀ D, inSubtree fuel s F D = true →
      findFolder (cascadeDeleteFolder fuel s F) D = none := by
    intro D hD
    unfold findFolder cascadeDeleteFolder
    refine find?_filter_none _ _ _ ?_
    intro a _ ha
    have : a.id = D := by simpa using ha
    simp [this, hD]
  have hfiles : ∀ fl ∈ s.files, ∀ fid, fl.folderId = some fid → inSubtree fuel s F fid = true →
      findFile (cascadeDeleteFolder fuel s F) fl.id = none := by
    intro fl hmem fid hfid hsub
    unfold findFile cascadeDeleteFolder
    refine find?_filter_none _ _ _ ?_
    intro a hamem ha
    have haid : a.id = fl.id := by simpa using ha
    have : a = fl := List.inj_on_of_nodup_map hnodup hamem hmem haid
    subst this
    simp [hfid, hsub]
  refine ⟨by rw [hstep], ?_, ?_, ?_⟩
  · rw [hstep]
    exact hfolders F (by simp [inSubtree])
  · intro D hD
    rw [hstep]
    exact hfolders D hD
  · intro fl hmem fid hfid hsub
    rw [hstep]
    exact hfiles fl hmem fid hfid hsub

/-- Witness for C6: deleting "Docs" (folder 1) also removes folder 2 and
the file inside it. -/
theorem deleteFolder_cascades_witness :
    findFolder exC6Store 1 = some exC6Docs ∧ exC6Docs.userId = 1 ∧
    (exC6Store.files.map FileRec.id).Nodup ∧
    inSubtree 8 exC6Store 1 2 = true ∧
    findFolder (deleteFolder 8 exC6Store 1 1).1 2 = none ∧
    findFile (deleteFolder 8 exC6Store 1 1).1 20 = none :=
  have h := deleteFolder_cascades 8 exC6Store 1 1 exC6Docs (by decide) (by decide) (by decide)
  ⟨by decide, by decide, by decide, by decide,
   h.2.2.1 2 (by decide), h.2.2.2 exC6File (by decide) 2 (by decide) (by decide)⟩

/-- C9: locking an owned folder twice succeeds both times and leaves
`isLocked = true`; unlocking a folder or a file that is not locked fails
with the dedicated state-precondition error (400, "... is not locked"),
never a silent success, and leaves the store untouched. -/
theorem lock_unlock_state_preconditions (s : Store) (uid folderId fileId : Nat)
    (f : FolderRec) (fl : FileRec)
    (hf : findFolder s folderId = some f) (hown : f.userId = uid)
    (hfl : findFile s fileId = some fl) (hflown : fl.userId = uid)
    (hfUnlocked : f.isLocked = false) (hflUnlocked : fl.isLocked = false) :
    (lockFolder s uid folderId).2 = Except.ok { f with isLocked := true } ∧
    (lockFolder (lockFolder s uid folderId).1 uid folderId).2 =
      Except.ok { f with isLocked := true } ∧
    findFolder (lockFolder (lockFolder s uid folderId).1 uid folderId).1 folderId =
      some { f with isLocked := true } ∧
    (∀ pw skip cmp, unlockFolder s uid folderId pw skip cmp =
      (s, Except.error (ApiError.badRequest "Folder is not locked"))) ∧
    unlockFile s uid fileId = (s, Except.error (ApiError.badRequest "File is not locked")) := by
  have hfid : f.id = folderId := (find_of_findFolder hf).2
  have hupd : ∀ x : FolderRec, (({ x with isLocked := true } : FolderRec)).id = x.id := by
    intro x; rfl
  have hstep1 : lockFolder s uid folderId =
      (updateFolderRow s folderId (fun g => { g with isLocked := true }),
       Except.ok { f with isLocked := true }) := by
    simp [lockFolder, hf, hown]
  have hfind1 : findFolder (lockFolder s uid folderId).1 folderId =
      some { f with isLocked := true } := by
    rw [hstep1]
    rw [findFolder_updateFolderRow _ _ _ _ hupd, hf]
    simp [hfid]
  have hstep2 : lockFolder (lockFolder s uid folderId).1 uid folderId =
      (updateFolderRow (lockFolder s uid folderId).1 folderId
         (fun g => { g with isLocked := true }),
       Except.ok { f with isLocked := true }) := by
    revert hfind1
    generalize (lockFolder s uid folderId).1 = X
    intro hfind1
    simp [lockFolder, hfind1, hown]
  refine ⟨by rw [hstep1], by rw [hstep2], ?_, ?_, ?_⟩
  · rw [hstep2]
    rw [findFolder_updateFolderRow _ _ _ _ hupd, hfind1]
    simp [hfid]
  · intro pw skip cmp
    simp [unlockFolder, hf, hown, hfUnlocked]
  · simp [unlockFile, hfl, hflown, hflUnlocked]

/-- Witness for C9 on a one-folder, one-file store. -/
theorem lock_unlock_state_preconditions_witness :
    findFolder exC9Store 6 = some exC9Folder ∧ exC9Folder.userId = 1 ∧
    findFile exC9Store 30 = some exC9File ∧ exC9File.userId = 1 ∧
    exC9Folder.isLocked = false ∧ exC9File.isLocked = false ∧
    findFolder (lockFolder (lockFolder exC9Store 1 6).1 1 6).1 6 =
      some { exC9Folder with isLocked := true } ∧
    unlockFolder exC9Store 1 6 (some "pw") false (fun _ _ => true) =
      (exC9Store, Except.error (ApiError.badRequest "Folder is not locked")) ∧
    unlockFile exC9Store 1 30 =
      (exC9Store, Except.error (ApiError.badRequest "File is not locked")) :=
  have h := lock_unlock_state_preconditions exC9Store 1 6 30 exC9Folder exC9File
    (by decide) (by decide) (by decide) (by decide) (by decide) (by decide)
  ⟨by decide, by decide, by decide, by decide, by decide, by decide,
   h.2.2.1, h.2.2.2.1 (some "pw") false (fun _ _ => true), h.2.2.2.2⟩

/-- C10: on a locked owned folder, `unlockFolder` with
`skipPasswordCheck = true` unconditionally clears the lock; the password
argument, the comparison collaborator and the user table are never
consulted, so two runs differing only in those agree on the folder table
and on the response. -/
theorem unlockFolder_skip_ignores_password (s : Store) (uid folderId : Nat) (f : FolderRec)
    (hf : findFolder s folderId = some f) (hown : f.userId = uid)
    (hlocked : f.isLocked = true) :
    (∀ pw cmp, unlockFolder s uid folderId pw true cmp =
      (updateFolderRow s folderId (fun g => { g with isLocked := false }),
       Except.ok { f with isLocked := false })) ∧
    (∀ pw1 pw2 cmp1 cmp2 users1 users2,
      ((unlockFolder { s with users := users1 } uid folderId pw1 true cmp1).1.folders =
       (unlockFolder { s with users := users2 } uid folderId pw2 true cmp2).1.folders) ∧
      ((unlockFolder { s with users := users1 } uid folderId pw1 true cmp1).2 =
       (unlockFolder { s with users := users2 } uid folderId pw2 true cmp2).2)) := by
  have hmain : ∀ (users : List UserRec) pw cmp,
      unlockFolder { s with users := users } uid folderId pw true cmp =
        (updateFolderRow { s with users := users } folderId
           (fun g => { g with isLocked := false }),
         Except.ok { f with isLocked := false }) := by
    intro users pw cmp
    have hf2 : findFolder { s with users := users } folderId = some f := hf
    simp [unlockFolder, hf2, hown, hlocked]
  constructor
  · intro pw cmp
    have := hmain s.users pw cmp
    simpa using this
  · intro pw1 pw2 cmp1 cmp2 users1 users2
    rw [hmain users1 pw1 cmp1, hmain users2 pw2 cmp2]
    exact ⟨rfl, rfl⟩

/-- Witness for C10 on a store with a locked folder; the two runs differ in
password, comparison function and user table, and agree. -/
theorem unlockFolder_skip_ignores_password_witness :
    findFolder exC10Store 9 = some exC10Folder ∧ exC10Folder.userId = 1 ∧
    exC10Folder.isLocked = true ∧
    ((unlockFolder { exC10Store with users := [] } 1 9 (some "x") true (fun _ _ => false)).1.folders =
     (unlockFolder { exC10Store with users := [ { id := 1, lockPassword := some "h" } ] } 1 9
        (some "y") true (fun _ _ => true)).1.folders) ∧
    ((unlockFolder { exC10Store with users := [] } 1 9 (some "x") true (fun _ _ => false)).2 =
     (unlockFolder { exC10Store with users := [ { id := 1, lockPassword := some "h" } ] } 1 9
        (some "y") true (fun _ _ => true)).2) :=
  have h := unlockFolder_skip_ignores_password exC10Store 1 9 exC10Folder
    (by decide) (by decide) (by decide)
  ⟨by decide, by decide, by decide,
   (h.2 (some "x") (some "y") (fun _ _ => false) (fun _ _ => true) []
      [ { id := 1, lockPassword := some "h" } ]).1,
   (h.2 (some "x") (some "y") (fun _ _ => false) (fun _ _ => true) []
      [ { id := 1, lockPassword := some "h" } ]).2⟩

theorem rankOk_spec {s : Store} {rank : Nat → Nat} (h : rankOkB s rank = true) :
    ∀ g ∈ s.folders, ∀ p, g.parentId = some p → rank p < rank g.id := by
  intro g hg p hp
  have hb := (List.all_eq_true.mp h) g hg
  rw [hp] at hb
  exact of_decide_eq_true hb

/-- The `while` loop of `getParentChain` on a ranked (acyclic) store:
enough fuel makes the result fuel-independent, every element is an owned
existing folder, ranks stay below the start, and the length is bounded. -/
theorem getParentChainLoop_props (s : Store) (rank : Nat → Nat) (uid : Nat)
    (hr : rankOkB s rank = true) :
    ∀ n pid, rank pid < n →
      ((∀ f1 f2, rank pid + 1 ≤ f1 → rank pid + 1 ≤ f2 →
         getParentChainLoop f1 s (some pid) uid = getParentChainLoop f2 s (some pid) uid) ∧
       (∀ fuel, rank pid + 1 ≤ fuel →
         (∀ el ∈ getParentChainLoop fuel s (some pid) uid,
            rank el.1 ≤ rank pid ∧
            ∃ g ∈ s.folders, g.id = el.1 ∧ g.name = el.2 ∧ g.userId = uid) ∧
         (getParentChainLoop fuel s (some pid) uid).length ≤ rank pid + 1)) := by
  intro n
  induction n with
  | zero => intro pid h; omega
  | succ n ih =>
    intro pid hlt
    have hstep : ∀ fuel, rank pid + 1 ≤ fuel →
        getParentChainLoop fuel s (some pid) uid =
          match findFolder s pid with
          | none => []
          | some f =>
            if f.userId ≠ uid then []
            else getParentChainLoop (fuel - 1) s f.parentId uid ++ [(f.id, f.name)] := by
      intro fuel hfuel
      cases fuel with
      | zero => omega
      | succ fl => simp [getParentChainLoop]
    cases hff : findFolder s pid with
    | none =>
      constructor
      · intro f1 f2 h1 h2
        rw [hstep f1 h1, hstep f2 h2]
        simp only [hff]
      · intro fuel hfuel
        rw [hstep fuel hfuel]
        simp only [hff]
        constructor
        · intro el hel; simp at hel
        · simp
    | some f =>
      have hfmem := (find_of_findFolder hff).1
      have hfid := (find_of_findFolder hff).2
      by_cases howner : f.userId = uid
      · have hnc : ¬(f.userId ≠ uid) := fun hc => hc howner
        cases hpp : f.parentId with
        | none =>
          have e : ∀ m : Nat, getParentChainLoop m s (none : Option Nat) uid = [] := by
            intro m; cases m <;> simp [getParentChainLoop]
          constructor
          · intro f1 f2 h1 h2
            rw [hstep f1 h1, hstep f2 h2]
            simp only [hff]
            rw [hpp, if_neg hnc, if_neg hnc, e, e]
          · intro fuel hfuel
            rw [hstep fuel hfuel]
            simp only [hff]
            rw [hpp, if_neg hnc, e, List.nil_append]
            constructor
            · intro el hel
              rw [List.mem_singleton] at hel
              subst hel
              exact ⟨by rw [hfid], f, hfmem, rfl, rfl, howner⟩
            · simp
        | some q =>
          have hq : rank q < rank pid := by
            have := rankOk_spec hr f hfmem q hpp
            rwa [hfid] at this
          have hqn : rank q < n := by omega
          have ihq := ih q hqn
          constructor
          · intro f1 f2 h1 h2
            rw [hstep f1 h1, hstep f2 h2]
            simp only [hff]
            rw [hpp, if_neg hnc, if_neg hnc, ihq.1 (f1 - 1) (f2 - 1) (by omega) (by omega)]
          · intro fuel hfuel
            rw [hstep fuel hfuel]
            simp only [hff]
            rw [hpp, if_neg hnc]
            have hprops := ihq.2 (fuel - 1) (by omega)
            constructor
            · intro el hel
              rw [List.mem_append] at hel
              cases hel with
              | inl hin =>
                rcases hprops.1 el hin with ⟨hrk, hex⟩
                exact ⟨by omega, hex⟩
              | inr hl =>
                rw [List.mem_singleton] at hl
                subst hl
                exact ⟨by rw [hfid], f, hfmem, rfl, rfl, howner⟩
            · have := hprops.2
              simp only [List.length_append, List.length_singleton]
              omega
      · constructor
        · intro f1 f2 h1 h2
          rw [hstep f1 h1, hstep f2 h2]
          simp only [hff]
          rw [if_pos howner, if_pos howner]
        · intro fuel hfuel
          rw [hstep fuel hfuel]
          simp only [hff]
          rw [if_pos howner]
          constructor
          · intro el hel; simp at hel
          · simp

/-- The visiting order of the loop: the returned pairs are the truncating
owned ancestor walk, reversed (root-most first). -/
theorem getParentChainLoop_map_fst :
    ∀ (fuel : Nat) (s : Store) (opid : Option Nat) (uid : Nat),
      (getParentChainLoop fuel s opid uid).map Prod.fst =
        (ancestorIdsOwned fuel s opid uid).reverse := by
  intro fuel
  induction fuel with
  | zero =>
    intro s opid uid
    cases opid <;> simp [getParentChainLoop, ancestorIdsOwned]
  | succ fl ih =>
    intro s opid uid
    cases opid with
    | none => simp [getParentChainLoop, ancestorIdsOwned]
    | some pid =>
      simp only [getParentChainLoop, ancestorIdsOwned]
      cases hff : findFolder s pid with
      | none => simp
      | some f =>
        by_cases howner : f.userId = uid
        · have hfid := (find_of_findFolder hff).2
          simp [howner, ih, hfid]
        · simp [howner]

/-- C8: on a store whose parent pointers strictly decrease a rank function
(the finite-acyclic-chain invariant), `getParentChain` stabilizes once the
fuel reaches the rank of the start folder (the walk terminates on its own),
never contains the start folder, has length at most the rank (a bound on
the tree depth), lists only existing folders owned by the caller (silent
truncation), and is ordered root-first: it is the reverse of the
truncating owned ancestor walk. -/
theorem getParentChain_props (s : Store) (rank : Nat → Nat) (uid folderId : Nat)
    (cur : FolderRec) (hr : rankOkB s rank = true)
    (hf : findFolder s folderId = some cur) :
    (∀ f1 f2, rank folderId ≤ f1 → rank folderId ≤ f2 →
       getParentChain f1 s folderId uid = getParentChain f2 s folderId uid) ∧
    (∀ fuel, rank folderId ≤ fuel →
       (∀ el ∈ getParentChain fuel s folderId uid, el.1 ≠ folderId) ∧
       (getParentChain fuel s folderId uid).length ≤ rank folderId ∧
       (∀ el ∈ getParentChain fuel s folderId uid,
          ∃ g ∈ s.folders, g.id = el.1 ∧ g.name = el.2 ∧ g.userId = uid)) ∧
    (cur.userId = uid → ∀ fuel, (getParentChain fuel s folderId uid).map Prod.fst =
       (ancestorIdsOwned fuel s cur.parentId uid).reverse) := by
  have hcmem := (find_of_findFolder hf).1
  have hcid := (find_of_findFolder hf).2
  have hunfold : ∀ fuel, getParentChain fuel s folderId uid =
      if cur.userId ≠ uid then [] else getParentChainLoop fuel s cur.parentId uid := by
    intro fuel
    simp [getParentChain, hf]
  by_cases howner : cur.userId = uid
  · cases hpp : cur.parentId with
    | none =>
      have hempty : ∀ fuel, getParentChain fuel s folderId uid = [] := by
        intro fuel
        rw [hunfold fuel, hpp]
        cases fuel <;> simp [howner, getParentChainLoop]
      refine ⟨?_, ?_, ?_⟩
      · intro f1 f2 _ _; rw [hempty f1, hempty f2]
      · intro fuel _
        rw [hempty fuel]
        refine ⟨by simp, by simp, by simp⟩
      · intro _ fuel
        rw [hempty fuel]
        cases fuel <;> simp [ancestorIdsOwned]
    | some q =>
      have hq : rank q < rank folderId := by
        have := rankOk_spec hr cur hcmem q hpp
        rwa [hcid] at this
      have hprops := getParentChainLoop_props s rank uid hr (rank q + 1) q (by omega)
      refine ⟨?_, ?_, ?_⟩
      · intro f1 f2 h1 h2
        rw [hunfold f1, hunfold f2, hpp]
        simp only [howner]
        have := hprops.1 f1 f2 (by omega) (by omega)
        simp [this]
      · intro fuel hfuel
        rw [hunfold fuel, hpp]
        simp only [howner, ne_eq, not_true_eq_false, if_false]
        have hp := hprops.2 fuel (by omega)
        refine ⟨?_, by have := hp.2; omega, ?_⟩
        · intro el hel
          have hrk := (hp.1 el hel).1
          intro heq
          rw [heq] at hrk
          omega
        · intro el hel
          exact (hp.1 el hel).2
      · intro _ fuel
        rw [hunfold fuel, hpp]
        simp only [howner, ne_eq, not_true_eq_false, if_false]
        exact getParentChainLoop_map_fst fuel s (some q) uid
  · refine ⟨?_, ?_, ?_⟩
    · intro f1 f2 _ _
      rw [hunfold f1, hunfold f2]
      simp [howner]
    · intro fuel _
      rw [hunfold fuel]
      simp [howner]
    · intro hcontra
      exact absurd hcontra howner

/-- C5 (amended): on a well-formed store, duplicating an owned folder F
(extracted subtree `t`) into a valid destination outside F's subtree
succeeds and answers with the top copy — named with the `" (Copy)"`
suffix, unlocked, not important, placed in the destination.  The store is
extended only by appending: every appended folder is owned by the caller,
unlocked and not important, and the original rows are untouched.  The
extraction of the new subtree strips to exactly the source subtree with
every folder name suffixed `" (Copy)"` and every file name given the
suffix before its extension — same child counts and nesting at every
level — while the source subtree still extracts to `t`. -/
theorem duplicateItem_folder_spec (s : Store) (uid F efuel dfuel : Nat) (f : FolderRec)
    (t : FTree) (dest : Option Nat)
    (hnd : (s.folders.map FolderRec.id).Nodup)
    (hinv : storeInvB s = true)
    (hF : findFolder s F = some f)
    (hex : extractTree efuel s F uid = some t)
    (hdest : ∀ d, dest = some d →
      ∃ df, findFolder s d = some df ∧ df.userId = uid ∧ d ∉ t.ids)
    (hfuel : t.depth ≤ dfuel) :
    ∃ s' u',
      duplicateFolderItem dfuel s uid F dest =
        some (s', Except.ok
          { id := s.nextFolderId, name := copyFolderName f.name, userId := uid
            parentId := dest, isLocked := false, isImportant := false, lockPassword := none
            folderColor := if f.folderColor = "" then "blue" else f.folderColor }) ∧
      (∃ E, s'.folders = s.folders ++ E ∧
        ∀ g ∈ E, g.userId = uid ∧ g.isLocked = false ∧ g.isImportant = false) ∧
      (∃ Efl, s'.files = s.files ++ Efl) ∧
      (∀ efc, t.depth ≤ efc → extractTree efc s' s.nextFolderId uid = some u') ∧
      u'.strip = t.strip.copyS ∧
      extractTree efuel s' F uid = some t := by
  obtain ⟨hI1, hI2, hI3, hI4⟩ := storeInvB_spec hinv
  obtain ⟨e, fex, cs, hef, hffex, hfexOwn, hcsex, ht⟩ := extractTree_unfold hex
  have hfexf : f = fex := by
    rw [hF] at hffex
    exact Option.some.inj hffex
  rw [← hfexf] at hfexOwn ht
  set nid := s.nextFolderId with hnid
  have hAlt : ∀ x ∈ t.ids, x < s.nextFolderId := by
    intro x hx
    obtain ⟨g, hg, hgid⟩ := (extract_ids efuel).1 s F uid t hex x hx
    have := hI1 g hg
    omega
  have hmain : ∀ (dest2 : Option Nat),
      (∀ d2, dest2 = some d2 → d2 < s.nextFolderId ∧ d2 ∉ t.ids) →
      ∃ s' u',
        dupContents dfuel
          { s with
              folders := s.folders ++
                [{ id := nid, name := copyFolderName f.name, userId := uid
                   parentId := dest2, isLocked := false, isImportant := false
                   lockPassword := none
                   folderColor := if f.folderColor = "" then "blue" else f.folderColor }]
              nextFolderId := nid + 1 } F nid uid = some s' ∧
        (∃ E, s'.folders = s.folders ++ E ∧
          ∀ g ∈ E, g.userId = uid ∧ g.isLocked = false ∧ g.isImportant = false) ∧
        (∃ Efl, s'.files = s.files ++ Efl) ∧
        (∀ efc, t.depth ≤ efc → extractTree efc s' nid uid = some u') ∧
        u'.strip = t.strip.copyS ∧
        extractTree efuel s' F uid = some t := by
    intro dest2 hd2
    set topCopy : FolderRec :=
      { id := nid, name := copyFolderName f.name, userId := uid
        parentId := dest2, isLocked := false, isImportant := false, lockPassword := none
        folderColor := if f.folderColor = "" then "blue" else f.folderColor } with htop
    set s1 : Store :=
      { s with folders := s.folders ++ [topCopy], nextFolderId := nid + 1 } with hs1
    have hs1folders : s1.folders = s.folders ++ [topCopy] := rfl
    have hs1files : s1.files = s.files := rfl
    have hs1nf : s1.nextFolderId = nid + 1 := rfl
    have hs1nfl : s1.nextFileId = s.nextFileId := rfl
    have htopPar : topCopy.parentId = dest2 := rfl
    have hsimInv : SimInv s uid t.ids s1 nid := by
      refine ⟨?_, ?_, ?_, ?_, ?_, ?_, by omega, le_of_eq hnid.symm, by omega, le_refl _⟩
      · intro x hx
        unfold subfoldersOf
        rw [hs1folders, List.filter_append]
        have hone : [topCopy].filter (fun g => g.parentId == some x && g.userId == uid) = [] := by
          rw [List.filter_eq_nil_iff]
          intro g2 hg2 hcon
          rw [List.mem_singleton] at hg2
          subst hg2
          have hpar : topCopy.parentId = some x := by
            have := (Bool.and_eq_true _ _).mp hcon
            simpa using this.1
          rw [htopPar] at hpar
          rcases hd2 x hpar with ⟨_, hnot⟩
          exact hnot hx
        rw [hone, List.append_nil]
      · intro x hx
        unfold filesIn
        rw [hs1files]
      · intro g hg
        rw [hs1folders] at hg
        rw [hs1nf]
        rcases List.mem_append.mp hg with h | h
        · have := hI1 g h
          omega
        · rw [List.mem_singleton] at h
          subst h
          have : topCopy.id = nid := rfl
          omega
      · intro g hg p hp
        rw [hs1folders] at hg
        rw [hs1nf]
        rcases List.mem_append.mp hg with h | h
        · have := hI2 g h p hp
          omega
        · rw [List.mem_singleton] at h
          subst h
          rw [htopPar] at hp
          rcases hd2 p hp with ⟨hlt, _⟩
          omega
      · intro fl hfl
        rw [hs1files] at hfl
        rw [hs1nfl]
        exact hI3 fl hfl
      · intro fl hfl p hp
        rw [hs1files] at hfl
        rw [hs1nf]
        have := hI4 fl hfl p hp
        omega
    have hfindTop : findFolder s1 nid = some topCopy := by
      have hpre : ∀ g2 ∈ s.folders, g2.id ≠ topCopy.id := by
        intro g2 hg2
        have := hI1 g2 hg2
        have : topCopy.id = nid := rfl
        omega
      exact @findFolder_fresh s1 s.folders topCopy [] rfl hpre
    have hchF1 : subfoldersOf s1 nid uid = [] := by
      unfold subfoldersOf
      rw [hs1folders, List.filter_append]
      rw [List.filter_eq_nil_iff.mpr, List.nil_append]
      · rw [List.filter_eq_nil_iff]
        intro g2 hg2 hcon
        rw [List.mem_singleton] at hg2
        subst hg2
        have hpar : topCopy.parentId = some nid := by
          have := (Bool.and_eq_true _ _).mp hcon
          simpa using this.1
        rw [htopPar] at hpar
        rcases hd2 nid hpar with ⟨hlt, _⟩
        omega
      · intro g2 hg2 hcon
        have hpar : g2.parentId = some nid := by
          have := (Bool.and_eq_true _ _).mp hcon
          simpa using this.1
        have := hI2 g2 hg2 nid hpar
        omega
    have hchFl1 : filesIn s1 nid uid = [] := by
      unfold filesIn
      rw [hs1files]
      rw [List.filter_eq_nil_iff]
      intro fl hfl hcon
      have hpar : fl.folderId = some nid := by
        have := (Bool.and_eq_true _ _).mp hcon
        simpa using this.1
      have := hI4 fl hfl nid hpar
      omega
    rcases (dup_sim s uid t.ids hnd hAlt t.depth).1 t F efuel (le_refl _) hex
      (fun _ hx => hx) s1 nid topCopy dfuel hsimInv hfindTop rfl hchF1 hchFl1 hfuel
      with ⟨s', u', hrun, hext, hexT, hstrip, hidsT, hfidsT⟩
    have hext' := hext
    obtain ⟨⟨E2, hE2, hE2p⟩, ⟨Efl2, hEfl2, hEfl2p⟩, hn2, hm2⟩ := hext'
    refine ⟨s', u', hrun, ?_, ?_, hexT, ?_, ?_⟩
    · refine ⟨topCopy :: E2, ?_, ?_⟩
      · rw [hE2, hs1folders, List.append_assoc, List.singleton_append]
      · intro g hg
        rcases List.mem_cons.mp hg with rfl | hmem
        · exact ⟨rfl, rfl, rfl⟩
        · rcases hE2p g hmem with ⟨h1, h2, h3, _⟩
          exact ⟨h1, h2, h3⟩
    · exact ⟨Efl2, by rw [hEfl2, hs1files]⟩
    · rw [hstrip, ht]
      simp only [FTree.strip, STree.copyUnder, STree.copyS]
    · apply (extract_stable efuel).1 s s' (topCopy :: E2) Efl2 F uid t hex
      · rw [hE2, hs1folders, List.append_assoc, List.singleton_append]
      · rw [hEfl2, hs1files]
      · intro g hg p hp hmem
        rcases List.mem_cons.mp hg with rfl | hmem2
        · rw [htopPar] at hp
          rcases hd2 p hp with ⟨_, hnot⟩
          exact hnot hmem
        · rcases hE2p g hmem2 with ⟨_, _, _, _, _, p2, hp2, hq2, _⟩
          rw [hp] at hp2
          have hpp : p2 = p := (Option.some.inj hp2).symm
          rw [hpp] at hq2
          have := hAlt p hmem
          rcases hq2 with rfl | hge
          · omega
          · rw [hs1nf] at hge
            omega
      · intro fl hfl p hp hmem
        rcases hEfl2p fl hfl with ⟨_, _, _, _, p2, hp2, hq2, _⟩
        rw [hp] at hp2
        have hpp : p2 = p := (Option.some.inj hp2).symm
        rw [hpp] at hq2
        have := hAlt p hmem
        rcases hq2 with rfl | hge
        · omega
        · rw [hs1nf] at hge
          omega
  cases dest with
  | none =>
    obtain ⟨s', u', hrun, hC2, hC3, hC4, hC5, hC6⟩ :=
      hmain none (fun d2 h => absurd h (by simp))
    refine ⟨s', u', ?_, hC2, hC3, hC4, hC5, hC6⟩
    simp only [duplicateFolderItem, hF]
    rw [if_neg (show ¬(f.userId ≠ uid) from fun hc => hc hfexOwn)]
    simp only [← hnid]
    rw [show f.id = F from (find_of_findFolder hF).2, hrun]
  | some d =>
    obtain ⟨df, hdf, hdfOwn, hdnot⟩ := hdest d rfl
    have hdlt : d < s.nextFolderId := by
      have h1 := (find_of_findFolder hdf).1
      have h2 := (find_of_findFolder hdf).2
      have := hI1 df h1
      omega
    obtain ⟨s', u', hrun, hC2, hC3, hC4, hC5, hC6⟩ :=
      hmain (some d) (fun d2 h => by
        have hd2d : d2 = d := (Option.some.inj h).symm
        subst hd2d
        exact ⟨hdlt, hdnot⟩)
    refine ⟨s', u', ?_, hC2, hC3, hC4, hC5, hC6⟩
    simp only [duplicateFolderItem, hF]
    rw [if_neg (show ¬(f.userId ≠ uid) from fun hc => hc hfexOwn)]
    simp only [hdf]
    rw [if_neg (show ¬(df.userId ≠ uid) from fun hc => hc hdfOwn)]
    simp only [← hnid]
    rw [show f.id = F from (find_of_findFolder hF).2, hrun]

/-- Witness for C8 on the chain 1 ← 2 ← 3 with the identity rank. -/
theorem getParentChain_props_witness :
    rankOkB exC8Store (fun i => i) = true ∧
    findFolder exC8Store 3 = some exC8C ∧
    getParentChain 3 exC8Store 3 1 = getParentChain 8 exC8Store 3 1 ∧
    (∀ el ∈ getParentChain 3 exC8Store 3 1, el.1 ≠ 3) ∧
    (getParentChain 3 exC8Store 3 1).length ≤ 3 ∧
    (getParentChain 3 exC8Store 3 1).map Prod.fst =
      (ancestorIdsOwned 3 exC8Store exC8C.parentId 1).reverse :=
  have h := getParentChain_props exC8Store (fun i => i) 1 3 exC8C (by decide) (by decide)
  ⟨by decide, by decide, h.1 3 8 (by decide) (by decide), (h.2.1 3 (by decide)).1,
   (h.2.1 3 (by decide)).2.1, h.2.2 (by decide) 3⟩

/-- C5 counterexample: duplicating folder `F` of `exDupStore` (it holds the
files `a.txt` and `b.txt`) succeeds, and the created file copies are named
`a (Copy).txt` and `b (Copy).txt` — the suffix goes before the extension,
per `basename`/`extname` — so the name `a.txt (Copy)` demanded by the claim
(plain suffixing at every level) is absent from the resulting store. -/
theorem duplicate_file_suffix_before_extension :
    (duplicateFolderItem 3 exDupStore 1 1 none).map
        (fun r => (r.1.files.map FileRec.name, r.2)) =
      some (["a.txt", "b.txt", "a (Copy).txt", "b (Copy).txt"],
        Except.ok
          { id := 2, name := "F (Copy)", userId := 1, parentId := none, isLocked := false
            isImportant := false, lockPassword := none, folderColor := "blue" }) ∧
    (duplicateFolderItem 3 exDupStore 1 1 none).map
        (fun r => decide (("a.txt" ++ " (Copy)") ∈ r.1.files.map FileRec.name)) =
      some false := by
  have h : duplicateFolderItem 3 exDupStore 1 1 none =
      some
        ({ folders :=
             [ { id := 1, name := "F", userId := 1, parentId := none, isLocked := false
                 isImportant := false, lockPassword := none, folderColor := "blue" }
             , { id := 2, name := "F (Copy)", userId := 1, parentId := none, isLocked := false
                 isImportant := false, lockPassword := none, folderColor := "blue" } ]
           files :=
             [ { id := 7, name := "a.txt", url := "/uploads/a.txt", size := 3
                 mimetype := "text/plain", userId := 1, folderId := some 1, isLocked := false
                 categoryId := none }
             , { id := 8, name := "b.txt", url := "/uploads/b.txt", size := 4
                 mimetype := "text/plain", userId := 1, folderId := some 1, isLocked := false
                 categoryId := none }
             , { id := 9, name := "a (Copy).txt", url := "/uploads/9-a (Copy).txt", size := 3
                 mimetype := "text/plain", userId := 1, folderId := some 2, isLocked := false
                 categoryId := none }
             , { id := 10, name := "b (Copy).txt", url := "/uploads/10-b (Copy).txt", size := 4
                 mimetype := "text/plain", userId := 1, folderId := some 2, isLocked := false
                 categoryId := none } ]
           users := [], nextFolderId := 3, nextFileId := 11 },
         Except.ok
           { id := 2, name := "F (Copy)", userId := 1, parentId := none, isLocked := false
             isImportant := false, lockPassword := none, folderColor := "blue" }) := by
    simp [duplicateFolderItem, dupContents, dupSubfolders, dupFiles, createCopyFile,
      filesIn, subfoldersOf, findFolder, exDupStore, copyFileName, splitLastDot,
      copyFolderName]
    decide
  rw [h]
  decide

/-- Witness for C5: the amended duplication theorem applied to `exC5Store`
(folder `F` with file `a.txt` and subfolder `Sub` holding `notes`), at
depth fuel 3 and no destination. -/
theorem duplicateItem_folder_spec_witness :
    (exC5Store.folders.map FolderRec.id).Nodup ∧
    storeInvB exC5Store = true ∧
    findFolder exC5Store 1 = some exC5F ∧
    extractTree 3 exC5Store 1 1 = some exC5Tree ∧
    exC5Tree.depth ≤ 3 ∧
    (∃ s' u',
      duplicateFolderItem 3 exC5Store 1 1 none =
        some (s', Except.ok
          { id := exC5Store.nextFolderId, name := copyFolderName exC5F.name, userId := 1
            parentId := none, isLocked := false, isImportant := false, lockPassword := none
            folderColor := if exC5F.folderColor = "" then "blue" else exC5F.folderColor }) ∧
      (∃ E, s'.folders = exC5Store.folders ++ E ∧
        ∀ g ∈ E, g.userId = 1 ∧ g.isLocked = false ∧ g.isImportant = false) ∧
      (∃ Efl, s'.files = exC5Store.files ++ Efl) ∧
      (∀ efc, exC5Tree.depth ≤ efc → extractTree efc s' exC5Store.nextFolderId 1 = some u') ∧
      u'.strip = exC5Tree.strip.copyS ∧
      extractTree 3 s' 1 1 = some exC5Tree) :=
  have hex : extractTree 3 exC5Store 1 1 = some exC5Tree := by
    simp [extractTree, extractForest, subfoldersOf, filesIn, findFolder, exC5Store, exC5Tree]
  ⟨by decide, by decide, by decide, hex, by decide,
   duplicateItem_folder_spec exC5Store 1 1 3 3 exC5F exC5Tree none (by decide) (by decide)
     (by decide) hex (fun d h => Option.noConfusion h) (by decide)⟩

end BackendFy
